import Mathlib

/-!
# pr-reviewer: reviewer assignment over a relational store

A shallow embedding of the use cases in `internal/usecase` (`pr.go`, `team.go`,
`user.go`) together with the repository functions they call in
`internal/adapter/repo/postgres` (`pr_repo.go`, `user_repo.go`, `team_repo.go`).

The relational store is a record of four tables, each a list of rows in
insertion order.  Every repository function is a function from a store to a
result and a store, so that "the store is unchanged" is a statement about the
code and not about the type.  Transport failures of the database (a lost
connection, a cancelled context) are outside the model: the only errors are
the sentinel errors of `internal/domain`.

Two things the code leaves to the database are explicit arguments here:

* `ORDER BY random()` in `ListActiveInTeamExcept` draws one random number per
  row and sorts by it; the draw is the argument `rnd : User → Nat`;
* `time.Now().UTC()` in `SetMerged` is the argument `now : Nat`, and the
  value the `created_at` column gets on insert is the argument `createdAt`.
-/

namespace PRReviewer

/-! ## Domain types (`internal/domain`) -/

/-- Modelled from the spec: the file of `internal/domain` that declares the
sentinel errors is not among the sources. These are the error kinds of the
spec, under the names `domain.Err*` that the use cases return and the handler
compares against with `errors.Is`. -/
inductive DomainError where
  | ErrNotFound
  | ErrTeamExists
  | ErrPRExists
  | ErrPRMerged
  | ErrNotAssigned
  | ErrNoCandidate
deriving DecidableEq, Repr

/-- Modelled from the spec: the file that declares `domain.User` is not among
the sources. A user has an identifier, a display name, one team and an active
flag; the field names are the ones the repositories scan into. -/
structure User where
  UserID : String
  Username : String
  TeamName : String
  IsActive : Bool
deriving DecidableEq, Repr

/-- Modelled from the spec: the file that declares `domain.Team` is not among
the sources. A team is its name and its members; the field names are the ones
`GetTeamWithMembers` and the use case write. -/
structure Team where
  TeamName : String
  Members : List User
deriving DecidableEq, Repr

/-- The Go type `PRStatus` is a string. -/
abbrev PRStatus := String

/-- The constant `domain.StatusOpen`. -/
def StatusOpen : PRStatus := "OPEN"

/-- The constant `domain.StatusMerged`. -/
def StatusMerged : PRStatus := "MERGED"

/-- The struct `domain.PullRequest`; the two timestamps are nullable. -/
structure PullRequest where
  ID : String
  Name : String
  AuthorID : String
  Status : PRStatus
  AssignedReviewers : List String
  CreatedAt : Option Nat
  MergedAt : Option Nat
deriving DecidableEq, Repr

/-- The struct `domain.PullRequestShort`. -/
structure PullRequestShort where
  ID : String
  Name : String
  AuthorID : String
  Status : PRStatus
deriving DecidableEq, Repr

/-! ## The store -/

/-- Modelled from the spec: the schema of the database is not among the
sources. One row of the table `pull_requests`, with the columns the queries of
`pr_repo.go` name; both timestamps are nullable, as `getByID` scans them into
pointers. -/
structure PRRow where
  pull_request_id : String
  pull_request_name : String
  author_id : String
  status : PRStatus
  created_at : Option Nat
  merged_at : Option Nat
deriving DecidableEq, Repr

/-- Modelled from the spec: the schema of the database is not among the
sources. The four tables the repositories query: `teams` (one column,
`team_name`), `users`, `pull_requests` and `pr_reviewers` (columns
`pull_request_id`, `reviewer_id`), each as the list of its rows. -/
structure Store where
  teams : List String
  users : List User
  pull_requests : List PRRow
  pr_reviewers : List (String × String)
deriving DecidableEq, Repr

/-- The store before any request. -/
def Store.empty : Store :=
  { teams := [], users := [], pull_requests := [], pr_reviewers := [] }

/-! ## `user_repo.go` -/

/-- Go function `UserRepo.GetByID`: the row with this `user_id`, or `ErrNotFound`. -/
def UserRepo.GetByID (s : Store) (id : String) : Except DomainError User :=
  match s.users.find? (fun u => u.UserID == id) with
  | some u => .ok u
  | none => .error .ErrNotFound

/-- Go function `UserRepo.SetActive`: `UPDATE users SET is_active=$2 WHERE user_id=$1`;
`ErrNotFound` when no row was affected, otherwise the row read back. -/
def UserRepo.SetActive (s : Store) (id : String) (active : Bool) :
    Except DomainError User × Store :=
  let s1 : Store :=
    { s with users := s.users.map (fun u => if u.UserID == id then { u with IsActive := active } else u) }
  if (s.users.filter (fun u => u.UserID == id)).length = 0 then
    (.error .ErrNotFound, s1)
  else
    (UserRepo.GetByID s1 id, s1)

/-- Go function `UserRepo.ListActiveInTeamExcept`: the rows with
`team_name=$1 AND is_active=TRUE AND NOT (user_id = ANY($2))`, ordered by the
random draw `rnd`, cut at `limit`. -/
def UserRepo.ListActiveInTeamExcept (s : Store) (rnd : User → Nat) (teamName : String)
    (excludeIDs : List String) (limit : Nat) : List User :=
  ((s.users.filter (fun u => u.TeamName == teamName && u.IsActive && !(excludeIDs.contains u.UserID))).insertionSort
    (fun a b => rnd a ≤ rnd b)).take limit

/-! ## `team_repo.go` -/

/-- Go function `TeamRepo.CreateTeam`: `ErrTeamExists` when the name is in `teams`,
otherwise the name is inserted. -/
def TeamRepo.CreateTeam (s : Store) (teamName : String) : Except DomainError Unit × Store :=
  if s.teams.contains teamName then
    (.error .ErrTeamExists, s)
  else
    (.ok (), { s with teams := s.teams ++ [teamName] })

/-- One statement of the batch of `UpsertUsersToTeam`:
`INSERT ... ON CONFLICT (user_id) DO UPDATE SET username, team_name, is_active`. -/
def TeamRepo.upsertUser (teamName : String) (rows : List User) (u : User) : List User :=
  if rows.any (fun r => r.UserID == u.UserID) then
    rows.map (fun r =>
      if r.UserID == u.UserID then
        { r with Username := u.Username, TeamName := teamName, IsActive := u.IsActive }
      else r)
  else
    rows ++ [{ UserID := u.UserID, Username := u.Username, TeamName := teamName, IsActive := u.IsActive }]

/-- Go function `TeamRepo.UpsertUsersToTeam`: the statements of the batch run in the order
of `users`; an empty list is a no-op. Its only errors are transport errors. -/
def TeamRepo.UpsertUsersToTeam (s : Store) (teamName : String) (users : List User) : Store :=
  { s with users := users.foldl (TeamRepo.upsertUser teamName) s.users }

/-- Go function `TeamRepo.GetTeamWithMembers`: `ErrNotFound` when the team is absent,
otherwise the team with `Members: nil` and the rows of `users` of that team
`ORDER BY user_id` (ids compared character by character; the collation of the
database is not in the sources). -/
def TeamRepo.GetTeamWithMembers (s : Store) (teamName : String) :
    Except DomainError (Team × List User) :=
  if !(s.teams.contains teamName) then
    .error .ErrNotFound
  else
    let members :=
      ((s.users.filter (fun u => u.TeamName == teamName)).insertionSort
        (fun a b => a.UserID.data ≤ b.UserID.data)).map (fun u => { u with TeamName := teamName })
    .ok ({ TeamName := teamName, Members := [] }, members)

/-! ## `pr_repo.go` -/

/-- Go function `PRRepo.GetAssignedReviewers`:
`SELECT reviewer_id FROM pr_reviewers WHERE pull_request_id=$1`. -/
def PRRepo.GetAssignedReviewers (s : Store) (prID : String) : List String :=
  (s.pr_reviewers.filter (fun r => r.1 == prID)).map (fun r => r.2)

/-- Go function `PRRepo.getByID`: the row of `pull_requests` with this id, with the
reviewer list of `GetAssignedReviewers`; `ErrNotFound` when there is no row. -/
def PRRepo.getByID (s : Store) (id : String) : Except DomainError PullRequest :=
  match s.pull_requests.find? (fun p => p.pull_request_id == id) with
  | none => .error .ErrNotFound
  | some p =>
    .ok { ID := p.pull_request_id, Name := p.pull_request_name, AuthorID := p.author_id,
          Status := p.status, AssignedReviewers := PRRepo.GetAssignedReviewers s id,
          CreatedAt := p.created_at, MergedAt := p.merged_at }

/-- Go function `PRRepo.GetByIDForUpdate` is `getByID`. -/
def PRRepo.GetByIDForUpdate (s : Store) (id : String) : Except DomainError PullRequest :=
  PRRepo.getByID s id

/-- Go function `PRRepo.CreatePRWithReviewers`: `ErrPRExists` when the id is in
`pull_requests`; otherwise one transaction inserts the row with status
`'OPEN'` and one `pr_reviewers` row per reviewer, and the PR is read back.
The `INSERT` names neither timestamp: `created_at` gets the argument
`createdAt` and `merged_at` starts as `NULL` (the merge time is set by the
first merge). -/
def PRRepo.CreatePRWithReviewers (s : Store) (createdAt : Option Nat) (pr : PullRequest)
    (reviewers : List String) : Except DomainError PullRequest × Store :=
  if s.pull_requests.any (fun p => p.pull_request_id == pr.ID) then
    (.error .ErrPRExists, s)
  else
    let s1 : Store :=
      { s with
        pull_requests := s.pull_requests ++
          [{ pull_request_id := pr.ID, pull_request_name := pr.Name, author_id := pr.AuthorID,
             status := "OPEN", created_at := createdAt, merged_at := none }],
        pr_reviewers := s.pr_reviewers ++ reviewers.map (fun rid => (pr.ID, rid)) }
    (PRRepo.getByID s1 pr.ID, s1)

/-- Go function `PRRepo.ReplaceReviewer`: one transaction runs
`DELETE FROM pr_reviewers WHERE pull_request_id=$1 AND reviewer_id=$2` and
`INSERT INTO pr_reviewers VALUES ($1,$3)`; the PR is read back after the commit. -/
def PRRepo.ReplaceReviewer (s : Store) (prID oldID newID : String) :
    Except DomainError PullRequest × Store :=
  let s1 : Store :=
    { s with
      pr_reviewers := s.pr_reviewers.filter (fun r => !(r.1 == prID && r.2 == oldID)) ++ [(prID, newID)] }
  (PRRepo.getByID s1 prID, s1)

/-- The `SET` clause of `SetMerged` on one row:
`status='MERGED', merged_at = COALESCE(merged_at, $2)` where the id matches. -/
def PRRepo.mergedRow (now : Nat) (prID : String) (p : PRRow) : PRRow :=
  if p.pull_request_id == prID then
    { p with status := "MERGED", merged_at := p.merged_at.orElse (fun _ => some now) }
  else p

/-- Go function `PRRepo.SetMerged`:
`UPDATE pull_requests SET status='MERGED', merged_at = COALESCE(merged_at, $2)
WHERE pull_request_id=$1`, then the PR is read back. -/
def PRRepo.SetMerged (s : Store) (now : Nat) (prID : String) :
    Except DomainError PullRequest × Store :=
  let s1 : Store :=
    { s with pull_requests := s.pull_requests.map (PRRepo.mergedRow now prID) }
  (PRRepo.getByID s1 prID, s1)

/-- The rows of `SELECT status, COUNT(*) FROM pull_requests GROUP BY status`:
one row per status that occurs. -/
def PRRepo.statusCounts (rows : List PRRow) : List (PRStatus × Nat) :=
  (rows.map (fun p => p.status)).dedup.map
    (fun st => (st, (rows.filter (fun p => p.status == st)).length))

/-- Go function `PRRepo.StatsByStatus`: the Go map starts as `{OPEN: 0, MERGED: 0}` and
`res[status] = count` runs for every row of the grouped query. A Go map is a
function from keys to optional values. -/
def PRRepo.StatsByStatus (s : Store) : PRStatus → Option Nat :=
  (PRRepo.statusCounts s.pull_requests).foldl
    (fun res row => fun k => if k = row.1 then some row.2 else res k)
    (fun k => if k = StatusOpen then some 0 else if k = StatusMerged then some 0 else none)

/-- The order `ORDER BY pr.created_at DESC` of `ListByReviewer`: later first,
and a row without `created_at` before all others (the default `NULLS FIRST` of
a descending order). -/
def PRRepo.createdDesc (a b : PRRow) : Bool :=
  match a.created_at, b.created_at with
  | none, _ => true
  | some _, none => false
  | some x, some y => decide (y ≤ x)

/-- Go function `PRRepo.ListByReviewer`: the join of `pull_requests` with the
rows of `pr_reviewers` that have this `reviewer_id`, newest PR first. The
query does not read `users`; the only errors of the function are transport
errors, so the result is always `ok`. -/
def PRRepo.ListByReviewer (s : Store) (reviewerID : String) :
    Except DomainError (List PullRequestShort) :=
  .ok (((s.pull_requests.flatMap (fun p =>
      (s.pr_reviewers.filter (fun r => r.1 == p.pull_request_id && r.2 == reviewerID)).map
        (fun _ => p))).insertionSort (fun a b => PRRepo.createdDesc a b = true)).map
    (fun p => { ID := p.pull_request_id, Name := p.pull_request_name,
                AuthorID := p.author_id, Status := p.status }))

/-! ## `usecase/team.go`, `usecase/user.go` -/

/-- Go function `TeamUsecase.CreateTeam`: create the team, upsert the members, read the
team back with its member list. -/
def TeamUsecase.CreateTeam (s : Store) (teamName : String) (members : List User) :
    Except DomainError Team × Store :=
  match TeamRepo.CreateTeam s teamName with
  | (.error e, s1) => (.error e, s1)
  | (.ok _, s1) =>
    let s2 := TeamRepo.UpsertUsersToTeam s1 teamName members
    match TeamRepo.GetTeamWithMembers s2 teamName with
    | .error e => (.error e, s2)
    | .ok (team, list) => (.ok { team with Members := list }, s2)

/-- Go function `TeamUsecase.GetTeam`. -/
def TeamUsecase.GetTeam (s : Store) (teamName : String) : Except DomainError Team :=
  match TeamRepo.GetTeamWithMembers s teamName with
  | .error e => .error e
  | .ok (team, list) => .ok { team with Members := list }

/-- Go function `UserUsecase.SetActive`. -/
def UserUsecase.SetActive (s : Store) (id : String) (active : Bool) :
    Except DomainError User × Store :=
  UserRepo.SetActive s id active

/-- Go function `UserUsecase.GetReviews`: `ListByReviewer`, with no lookup
of the user. -/
def UserUsecase.GetReviews (s : Store) (userID : String) :
    Except DomainError (List PullRequestShort) :=
  PRRepo.ListByReviewer s userID

/-! ## `usecase/pr.go` -/

/-- Go function `PRUsecase.CreatePR`: resolve the author, draw at most two active team
mates other than the author, insert the PR with them as reviewers. -/
def PRUsecase.CreatePR (s : Store) (rnd : User → Nat) (createdAt : Option Nat)
    (prID name authorID : String) : Except DomainError PullRequest × Store :=
  match UserRepo.GetByID s authorID with
  | .error e => (.error e, s)
  | .ok author =>
    let exclude := [author.UserID]
    let cands := UserRepo.ListActiveInTeamExcept s rnd author.TeamName exclude 2
    let revs := cands.map (fun c => c.UserID)
    let pr : PullRequest :=
      { ID := prID, Name := name, AuthorID := authorID, Status := StatusOpen,
        AssignedReviewers := [], CreatedAt := none, MergedAt := none }
    PRRepo.CreatePRWithReviewers s createdAt pr revs

/-- The selection loop of `PRUsecase.Reassign` (the `for _, c := range cands`
that sets `next`): the id of the first candidate that is not `oldUserID` and
not in `assigned`, and `""` when the loop ends without one. -/
def PRUsecase.Reassign.next (oldUserID : String) (assigned : List String) : List User → String
  | [] => ""
  | c :: cands =>
    if c.UserID == oldUserID then
      PRUsecase.Reassign.next oldUserID assigned cands
    else if assigned.any (fun a => a == c.UserID) then
      PRUsecase.Reassign.next oldUserID assigned cands
    else
      c.UserID

/-- Go function `PRUsecase.Reassign`: the checks in the order of the source (PR exists,
not merged, `oldUserID` assigned, `oldUserID` resolves), then the selection
among at most twenty candidates, then `ReplaceReviewer`. -/
def PRUsecase.Reassign (s : Store) (rnd : User → Nat) (prID oldUserID : String) :
    Except DomainError (PullRequest × String) × Store :=
  match PRRepo.GetByIDForUpdate s prID with
  | .error e => (.error e, s)
  | .ok pr =>
    if pr.Status = StatusMerged then
      (.error .ErrPRMerged, s)
    else
      let assigned := PRRepo.GetAssignedReviewers s prID
      let found := assigned.any (fun r => r == oldUserID)
      if !found then
        (.error .ErrNotAssigned, s)
      else
        match UserRepo.GetByID s oldUserID with
        | .error e => (.error e, s)
        | .ok oldUser =>
          let exclude := assigned ++ [pr.AuthorID]
          let cands := UserRepo.ListActiveInTeamExcept s rnd oldUser.TeamName exclude 20
          let next := PRUsecase.Reassign.next oldUserID assigned cands
          if next = "" then
            (.error .ErrNoCandidate, s)
          else
            match PRRepo.ReplaceReviewer s prID oldUserID next with
            | (.error e, s1) => (.error e, s1)
            | (.ok updated, s1) => (.ok (updated, next), s1)

/-- Go function `PRUsecase.Merge` is `SetMerged`. -/
def PRUsecase.Merge (s : Store) (now : Nat) (prID : String) :
    Except DomainError PullRequest × Store :=
  PRRepo.SetMerged s now prID

/-- Go function `PRUsecase.StatsByStatus`. -/
def PRUsecase.StatsByStatus (s : Store) : PRStatus → Option Nat :=
  PRRepo.StatsByStatus s

/-! ## Sequences of requests -/

/-- One state-changing request to the use cases, with the values the database
draws while serving it. -/
inductive Op where
  | CreateTeam (teamName : String) (members : List User)
  | SetActive (id : String) (active : Bool)
  | CreatePR (rnd : User → Nat) (createdAt : Option Nat) (prID name authorID : String)
  | Reassign (rnd : User → Nat) (prID oldUserID : String)
  | Merge (now : Nat) (prID : String)

/-- The store after one request. -/
def Op.run (s : Store) : Op → Store
  | .CreateTeam teamName members => (TeamUsecase.CreateTeam s teamName members).2
  | .SetActive id active => (UserUsecase.SetActive s id active).2
  | .CreatePR rnd createdAt prID name authorID =>
    (PRUsecase.CreatePR s rnd createdAt prID name authorID).2
  | .Reassign rnd prID oldUserID => (PRUsecase.Reassign s rnd prID oldUserID).2
  | .Merge now prID => (PRUsecase.Merge s now prID).2

/-- The store after a sequence of requests, served one after the other. -/
def runOps (s : Store) (ops : List Op) : Store :=
  ops.foldl Op.run s

/-- A store is reachable when a sequence of requests leads to it from the
empty store. -/
def Reachable (s : Store) : Prop :=
  ∃ ops : List Op, runOps Store.empty ops = s

/-- Modelled from the spec: the schema of the database is not among the
sources. The constraints the spec gives the store: unique user id, PR id and
team name, a reviewer collection without duplicates (a pair
`(pull_request_id, reviewer_id)` occurs once in `pr_reviewers`), and
`pr_reviewers` as a join whose `pull_request_id` is a foreign key into
`pull_requests`. Every reachable store satisfies them (`reachable_inv`). -/
structure Store.WF (s : Store) : Prop where
  users_key : (s.users.map (fun u => u.UserID)).Nodup
  prs_key : (s.pull_requests.map (fun p => p.pull_request_id)).Nodup
  teams_key : s.teams.Nodup
  reviewers_key : s.pr_reviewers.Nodup
  reviewers_ref : ∀ r ∈ s.pr_reviewers, r.1 ∈ s.pull_requests.map (fun p => p.pull_request_id)

/-- What holds of the PRs of every reachable store beyond the keys: a status
is `OPEN` or `MERGED`, a merged PR has its merge time, and the author of a PR
is not among its reviewers. -/
structure Store.Inv (s : Store) extends Store.WF s : Prop where
  status_known : ∀ p ∈ s.pull_requests, p.status = StatusOpen ∨ p.status = StatusMerged
  merged_time : ∀ p ∈ s.pull_requests, p.status = StatusMerged → p.merged_at ≠ none
  author_free : ∀ p ∈ s.pull_requests, (p.pull_request_id, p.author_id) ∉ s.pr_reviewers

/-- Every reviewer row names a user of the store. It holds of every
reachable store, since reviewers are drawn from `users` and no request deletes
a user. -/
def Store.ReviewersAreUsers (s : Store) : Prop :=
  ∀ r ∈ s.pr_reviewers, r.2 ∈ s.users.map (fun u => u.UserID)

/-- The scenario of the specification: team `core` with `u1` and `u2` active
and `u3` inactive. -/
def coreMembers : List User :=
  [ { UserID := "u1", Username := "Ann", TeamName := "core", IsActive := true },
    { UserID := "u2", Username := "Bob", TeamName := "core", IsActive := true },
    { UserID := "u3", Username := "Cy", TeamName := "core", IsActive := false } ]

/-- The store after `CreateTeam("core", coreMembers)` on the empty store. -/
def coreStore : Store :=
  (TeamUsecase.CreateTeam Store.empty "core" coreMembers).2

/-- The store after `CreatePR("pr1","fix","u1")` on `coreStore`. -/
def pr1Store : Store :=
  (PRUsecase.CreatePR coreStore (fun _ => 0) (some 5) "pr1" "fix" "u1").2

/-- The store after `Merge("pr1")` at time 9 on `pr1Store`. -/
def mergedStore : Store :=
  (PRUsecase.Merge pr1Store 9 "pr1").2

/-- The PR `pr1` as `getByID` returns it from `pr1Store`. -/
def pr1Open : PullRequest :=
  { ID := "pr1", Name := "fix", AuthorID := "u1", Status := "OPEN",
    AssignedReviewers := ["u2"], CreatedAt := some 5, MergedAt := none }

/-- The PR `pr1` as `getByID` returns it from `mergedStore`. -/
def pr1Merged : PullRequest :=
  { ID := "pr1", Name := "fix", AuthorID := "u1", Status := "MERGED",
    AssignedReviewers := ["u2"], CreatedAt := some 5, MergedAt := some 9 }

/-- A team of four active users. -/
def quadMembers : List User :=
  [ { UserID := "u1", Username := "Ann", TeamName := "quad", IsActive := true },
    { UserID := "u2", Username := "Bob", TeamName := "quad", IsActive := true },
    { UserID := "u3", Username := "Cy", TeamName := "quad", IsActive := true },
    { UserID := "u4", Username := "Di", TeamName := "quad", IsActive := true } ]

/-- A sequence of requests: the team `quad` is created, `u1` opens `pr1` and
`pr2`, the reviewer `u2` of `pr1` is reassigned, and `pr2` is merged. -/
def quadOps : List Op :=
  [ .CreateTeam "quad" quadMembers,
    .CreatePR (fun _ => 0) (some 5) "pr1" "fix" "u1",
    .CreatePR (fun _ => 0) (some 6) "pr2" "feat" "u1",
    .Reassign (fun _ => 0) "pr1" "u2",
    .Merge 9 "pr2" ]

/-- The store after the first three requests of `quadOps`. -/
def quadOpenStore : Store :=
  runOps Store.empty (quadOps.take 3)

/-- The store after `quadOps`. -/
def quadStore : Store :=
  runOps Store.empty quadOps

/-- The PR `pr2` as `getByID` returns it from `quadStore`. -/
def pr2Merged : PullRequest :=
  { ID := "pr2", Name := "feat", AuthorID := "u1", Status := "MERGED",
    AssignedReviewers := ["u2", "u3"], CreatedAt := some 6, MergedAt := some 9 }

/-- A team in which two users are inactive at first, one of them with the
empty string as id (the handler passes the ids of the request on as they are). -/
def blankMembers : List User :=
  [ { UserID := "u1", Username := "Ann", TeamName := "core", IsActive := true },
    { UserID := "u2", Username := "Bob", TeamName := "core", IsActive := true },
    { UserID := "", Username := "Nil", TeamName := "core", IsActive := false },
    { UserID := "u3", Username := "Cy", TeamName := "core", IsActive := false } ]

/-- A sequence of requests: the team `core` is created with `blankMembers`,
`u1` opens `pr1` (reviewer `u2`), then the two inactive users are activated. -/
def blankOps : List Op :=
  [ .CreateTeam "core" blankMembers,
    .CreatePR (fun _ => 0) (some 5) "pr1" "fix" "u1",
    .SetActive "" true,
    .SetActive "u3" true ]

/-- The store after `blankOps`. -/
def blankStore : Store :=
  runOps Store.empty blankOps

/-! ## Lemmas on the repository functions -/

/-- A row update that keeps the id does not change which row a lookup by id
finds. -/
theorem find?_map_keep_id (f : PRRow → PRRow) (hf : ∀ p, (f p).pull_request_id = p.pull_request_id)
    (id : String) (rows : List PRRow) :
    (rows.map f).find? (fun p => p.pull_request_id == id)
      = (rows.find? (fun p => p.pull_request_id == id)).map f := by
  induction rows with
  | nil => rfl
  | cons p rows ih =>
    by_cases h : p.pull_request_id = id
    · simp [hf, h]
    · have hb : (p.pull_request_id == id) = false := by simpa using h
      simp only [List.map_cons, List.find?_cons, hf, hb, ih]

/-- The row behind a successful `getByID`. -/
theorem getByID_ok_iff (s : Store) (id : String) (pr : PullRequest) :
    PRRepo.getByID s id = .ok pr ↔
      ∃ p, s.pull_requests.find? (fun p => p.pull_request_id == id) = some p ∧
        pr = { ID := p.pull_request_id, Name := p.pull_request_name, AuthorID := p.author_id,
               Status := p.status, AssignedReviewers := PRRepo.GetAssignedReviewers s id,
               CreatedAt := p.created_at, MergedAt := p.merged_at } := by
  unfold PRRepo.getByID
  constructor
  · intro h
    split at h
    · cases h
    · rename_i p hp
      refine ⟨p, hp, ?_⟩
      cases h
      rfl
  · rintro ⟨p, hp, rfl⟩
    simp [hp]

theorem mergedRow_id (now : Nat) (prID : String) (p : PRRow) :
    (PRRepo.mergedRow now prID p).pull_request_id = p.pull_request_id := by
  unfold PRRepo.mergedRow
  split <;> rfl

theorem mergedRow_author (now : Nat) (prID : String) (p : PRRow) :
    (PRRepo.mergedRow now prID p).author_id = p.author_id := by
  unfold PRRepo.mergedRow
  split <;> rfl

/-- The store `SetMerged` leaves. -/
theorem setMerged_store (s : Store) (now : Nat) (prID : String) :
    (PRRepo.SetMerged s now prID).2
      = { s with pull_requests := s.pull_requests.map (PRRepo.mergedRow now prID) } := by
  rfl

/-- The result of `SetMerged` is `getByID` on the store it leaves. -/
theorem setMerged_result (s : Store) (now : Nat) (prID : String) :
    (PRRepo.SetMerged s now prID).1 = PRRepo.getByID (PRRepo.SetMerged s now prID).2 prID := by
  rfl

/-- Merging a row that is merged and has its merge time changes nothing. -/
theorem mergedRow_fixed (now : Nat) (prID : String) (p : PRRow)
    (hst : p.status = StatusMerged) (hm : p.merged_at ≠ none) :
    PRRepo.mergedRow now prID p = p := by
  unfold PRRepo.mergedRow
  split
  · cases p with
    | mk i n a st c m =>
      cases m with
      | none => exact absurd rfl hm
      | some t =>
        simp only [StatusMerged] at hst
        subst hst
        rfl
  · rfl

/-- The second of two merges of the same PR changes no row. -/
theorem mergedRow_twice (now1 now2 : Nat) (prID : String) (p : PRRow) :
    PRRepo.mergedRow now2 prID (PRRepo.mergedRow now1 prID p) = PRRepo.mergedRow now1 prID p := by
  by_cases h : p.pull_request_id = prID
  · cases p with
    | mk i n a st c m =>
      cases m <;> simp_all [PRRepo.mergedRow, Option.orElse]
  · simp [PRRepo.mergedRow, h]

/-! ## Lemmas on the candidate query and the selection loop -/

/-- Every row `ListActiveInTeamExcept` returns is a row of `users` of the team,
active, with an id outside the exclude list. -/
theorem mem_listActive {s : Store} {rnd : User → Nat} {teamName : String}
    {excludeIDs : List String} {limit : Nat} {u : User}
    (h : u ∈ UserRepo.ListActiveInTeamExcept s rnd teamName excludeIDs limit) :
    u ∈ s.users ∧ u.TeamName = teamName ∧ u.IsActive = true ∧ u.UserID ∉ excludeIDs := by
  unfold UserRepo.ListActiveInTeamExcept at h
  have h1 := List.mem_of_mem_take h
  have h2 := (List.perm_insertionSort _ _).mem_iff.mp h1
  simp only [List.mem_filter, Bool.and_eq_true, beq_iff_eq, Bool.not_eq_true',
    List.contains_eq_any_beq, List.any_eq_false, beq_iff_eq] at h2
  refine ⟨h2.1, h2.2.1.1, h2.2.1.2, ?_⟩
  intro hmem
  exact h2.2.2 _ hmem rfl

/-- Function `ListActiveInTeamExcept` returns `limit` rows, or all that qualify when
there are fewer. -/
theorem listActive_length (s : Store) (rnd : User → Nat) (teamName : String)
    (excludeIDs : List String) (limit : Nat) :
    (UserRepo.ListActiveInTeamExcept s rnd teamName excludeIDs limit).length
      = min limit (s.users.filter (fun u =>
          u.TeamName == teamName && u.IsActive && !(excludeIDs.contains u.UserID))).length := by
  unfold UserRepo.ListActiveInTeamExcept
  rw [List.length_take, (List.perm_insertionSort _ _).length_eq]

/-- When `user_id` is a key, the ids `ListActiveInTeamExcept` returns are
pairwise distinct. -/
theorem listActive_ids_nodup (s : Store) (rnd : User → Nat) (teamName : String)
    (excludeIDs : List String) (limit : Nat)
    (hk : (s.users.map (fun u => u.UserID)).Nodup) :
    ((UserRepo.ListActiveInTeamExcept s rnd teamName excludeIDs limit).map
      (fun u => u.UserID)).Nodup := by
  unfold UserRepo.ListActiveInTeamExcept
  have hf : ((s.users.filter (fun u =>
      u.TeamName == teamName && u.IsActive && !(excludeIDs.contains u.UserID))).map
      (fun u => u.UserID)).Nodup :=
    hk.sublist ((List.filter_sublist _).map _)
  have hs := ((List.perm_insertionSort (fun a b => rnd a ≤ rnd b) _).map
    (fun u : User => u.UserID)).nodup_iff.mpr hf
  exact hs.sublist ((List.take_sublist _ _).map _)

/-- The selection loop returns `""` or the id of a candidate that is not
`oldUserID` and not assigned. -/
theorem next_spec (oldUserID : String) (assigned : List String) (cands : List User) :
    PRUsecase.Reassign.next oldUserID assigned cands = "" ∨
    ((∃ c ∈ cands, c.UserID = PRUsecase.Reassign.next oldUserID assigned cands) ∧
      PRUsecase.Reassign.next oldUserID assigned cands ≠ oldUserID ∧
      PRUsecase.Reassign.next oldUserID assigned cands ∉ assigned) := by
  induction cands with
  | nil => left; rfl
  | cons c cands ih =>
    unfold PRUsecase.Reassign.next
    split
    · rcases ih with h | ⟨⟨d, hd, hdn⟩, h2, h3⟩
      · left; exact h
      · right; exact ⟨⟨d, List.mem_cons_of_mem _ hd, hdn⟩, h2, h3⟩
    · split
      · rcases ih with h | ⟨⟨d, hd, hdn⟩, h2, h3⟩
        · left; exact h
        · right; exact ⟨⟨d, List.mem_cons_of_mem _ hd, hdn⟩, h2, h3⟩
      · rename_i h1 h2
        right
        refine ⟨⟨c, List.mem_cons_self _ _, rfl⟩, ?_, ?_⟩
        · simpa using h1
        · intro hm
          apply h2
          exact List.any_eq_true.mpr ⟨_, hm, by simp⟩

/-- The reviewer list of `prID` after `ReplaceReviewer`: the old list without
`oldID`, then `newID`. -/
theorem replace_reviewers_same (rows : List (String × String)) (prID oldID newID : String) :
    (((rows.filter (fun r => !(r.1 == prID && r.2 == oldID))) ++ [(prID, newID)]).filter
        (fun r => r.1 == prID)).map (fun r => r.2)
      = (((rows.filter (fun r => r.1 == prID)).map (fun r => r.2)).filter
          (fun x => x != oldID)) ++ [newID] := by
  induction rows with
  | nil => simp
  | cons r rows ih =>
    simp only [List.filter_append, List.map_append] at ih ⊢
    by_cases h1 : r.1 = prID <;> by_cases h2 : r.2 = oldID <;>
      simp_all [List.filter_cons]

/-- The reviewer rows of another PR are the same after `ReplaceReviewer`. -/
theorem replace_reviewers_other (rows : List (String × String)) (prID oldID newID id : String)
    (hne : id ≠ prID) :
    ((rows.filter (fun r => !(r.1 == prID && r.2 == oldID))) ++ [(prID, newID)]).filter
        (fun r => r.1 == id)
      = rows.filter (fun r => r.1 == id) := by
  induction rows with
  | nil => simp [Ne.symm hne]
  | cons r rows ih =>
    simp only [List.filter_append] at ih ⊢
    by_cases h1 : r.1 = prID <;> by_cases h2 : r.2 = oldID <;> by_cases h3 : r.1 = id <;>
      simp_all [List.filter_cons]

/-! ## What each request does to the store -/

/-- Function `GetByID` returns a row of `users` with the id asked for. -/
theorem getUser_ok {s : Store} {id : String} {u : User} (h : UserRepo.GetByID s id = .ok u) :
    u ∈ s.users ∧ u.UserID = id := by
  unfold UserRepo.GetByID at h
  split at h
  · rename_i v hv
    cases h
    exact ⟨List.mem_of_find?_eq_some hv, by simpa using List.find?_some hv⟩
  · cases h

/-- A successful `getByID` means a row with that id. -/
theorem getByID_ok_any {s : Store} {id : String} {pr : PullRequest}
    (h : PRRepo.getByID s id = .ok pr) :
    s.pull_requests.any (fun p => p.pull_request_id == id) = true := by
  obtain ⟨p, hp, -⟩ := (getByID_ok_iff s id pr).mp h
  have hid := List.find?_some hp
  exact List.any_eq_true.mpr ⟨p, List.mem_of_find?_eq_some hp, hid⟩

/-- Function `CreatePR` either fails and leaves the store as it was, or the id is new,
the author resolves, and the store gains one `OPEN` row and one reviewer row
per candidate; the result is then the PR read back. -/
theorem createPR_cases (s : Store) (rnd : User → Nat) (createdAt : Option Nat)
    (prID name authorID : String) :
    ((PRUsecase.CreatePR s rnd createdAt prID name authorID).2 = s ∧
      ∃ e, (PRUsecase.CreatePR s rnd createdAt prID name authorID).1 = .error e) ∨
    ∃ author : User, UserRepo.GetByID s authorID = .ok author ∧
      s.pull_requests.any (fun p => p.pull_request_id == prID) = false ∧
      (PRUsecase.CreatePR s rnd createdAt prID name authorID).2 =
        { s with
          pull_requests := s.pull_requests ++
            [{ pull_request_id := prID, pull_request_name := name, author_id := authorID,
               status := "OPEN", created_at := createdAt, merged_at := none }],
          pr_reviewers := s.pr_reviewers ++
            ((UserRepo.ListActiveInTeamExcept s rnd author.TeamName [author.UserID] 2).map
              (fun c => c.UserID)).map (fun rid => (prID, rid)) } ∧
      (PRUsecase.CreatePR s rnd createdAt prID name authorID).1 =
        PRRepo.getByID (PRUsecase.CreatePR s rnd createdAt prID name authorID).2 prID := by
  unfold PRUsecase.CreatePR
  cases ha : UserRepo.GetByID s authorID with
  | error e => left; exact ⟨rfl, e, rfl⟩
  | ok author =>
    by_cases hany : s.pull_requests.any (fun p => p.pull_request_id == prID) = true
    · left
      simp [PRRepo.CreatePRWithReviewers, hany]
    · right
      have hany2 : s.pull_requests.any (fun p => p.pull_request_id == prID) = false := by
        simpa using hany
      refine ⟨author, rfl, hany2, ?_, ?_⟩ <;>
        simp only [PRRepo.CreatePRWithReviewers, hany2] <;> rfl

/-- Function `Reassign` either fails and leaves the store as it was, or the PR exists
and is not merged, `oldUserID` is assigned and resolves, the selection loop
found `next`, and the store has the row `(prID, oldUserID)` deleted and the row
`(prID, next)` inserted; the result is then the PR read back, with `next`. -/
theorem reassign_cases (s : Store) (rnd : User → Nat) (prID oldUserID : String) :
    ((PRUsecase.Reassign s rnd prID oldUserID).2 = s ∧
      ∃ e, (PRUsecase.Reassign s rnd prID oldUserID).1 = .error e) ∨
    ∃ (pr : PullRequest) (oldUser : User) (next : String),
      PRRepo.getByID s prID = .ok pr ∧ pr.Status ≠ StatusMerged ∧
      oldUserID ∈ PRRepo.GetAssignedReviewers s prID ∧
      UserRepo.GetByID s oldUserID = .ok oldUser ∧
      next = PRUsecase.Reassign.next oldUserID (PRRepo.GetAssignedReviewers s prID)
        (UserRepo.ListActiveInTeamExcept s rnd oldUser.TeamName
          (PRRepo.GetAssignedReviewers s prID ++ [pr.AuthorID]) 20) ∧
      next ≠ "" ∧
      (PRUsecase.Reassign s rnd prID oldUserID).2 =
        { s with
          pr_reviewers := s.pr_reviewers.filter (fun r => !(r.1 == prID && r.2 == oldUserID))
            ++ [(prID, next)] } ∧
      (PRUsecase.Reassign s rnd prID oldUserID).1 =
        .ok ({ pr with AssignedReviewers :=
                (pr.AssignedReviewers.filter (fun x => x != oldUserID)) ++ [next] }, next) := by
  unfold PRUsecase.Reassign
  simp only [PRRepo.GetByIDForUpdate]
  cases hg : PRRepo.getByID s prID with
  | error e => left; exact ⟨rfl, e, rfl⟩
  | ok pr =>
    by_cases hst : pr.Status = StatusMerged
    · left; simp [hst]
    · simp only [hst, if_false]
      by_cases hf : (PRRepo.GetAssignedReviewers s prID).any (fun r => r == oldUserID) = true
      · simp only [hf, Bool.not_true]
        cases hu : UserRepo.GetByID s oldUserID with
        | error e => left; exact ⟨rfl, e, rfl⟩
        | ok oldUser =>
          by_cases hn : PRUsecase.Reassign.next oldUserID (PRRepo.GetAssignedReviewers s prID)
              (UserRepo.ListActiveInTeamExcept s rnd oldUser.TeamName
                (PRRepo.GetAssignedReviewers s prID ++ [pr.AuthorID]) 20) = ""
          · left; simp [hn]
          · right
            obtain ⟨p, hp, hpr⟩ := (getByID_ok_iff s prID pr).mp hg
            have hmem : oldUserID ∈ PRRepo.GetAssignedReviewers s prID := by
              obtain ⟨x, hx, hxe⟩ := List.any_eq_true.mp hf
              have : x = oldUserID := by simpa using hxe
              exact this ▸ hx
            have hrev : pr.AssignedReviewers = PRRepo.GetAssignedReviewers s prID := by
              rw [hpr]
            have hread : PRRepo.getByID
                { s with pr_reviewers :=
                    s.pr_reviewers.filter (fun r => !(r.1 == prID && r.2 == oldUserID)) ++
                      [(prID, PRUsecase.Reassign.next oldUserID (PRRepo.GetAssignedReviewers s prID)
                        (UserRepo.ListActiveInTeamExcept s rnd oldUser.TeamName
                          (PRRepo.GetAssignedReviewers s prID ++ [pr.AuthorID]) 20))] } prID
                = .ok { pr with AssignedReviewers :=
                    (pr.AssignedReviewers.filter (fun x => x != oldUserID)) ++
                      [PRUsecase.Reassign.next oldUserID (PRRepo.GetAssignedReviewers s prID)
                        (UserRepo.ListActiveInTeamExcept s rnd oldUser.TeamName
                          (PRRepo.GetAssignedReviewers s prID ++ [pr.AuthorID]) 20)] } := by
              rw [getByID_ok_iff]
              refine ⟨p, hp, ?_⟩
              rw [hrev, hpr]
              simp only [PRRepo.GetAssignedReviewers, replace_reviewers_same]
            refine ⟨pr, oldUser, _, rfl, hst, hmem, rfl, rfl, hn, ?_, ?_⟩
            · simp only [hn, Bool.false_eq_true, if_false, PRRepo.ReplaceReviewer, hread]
            · simp only [hn, Bool.false_eq_true, if_false, PRRepo.ReplaceReviewer, hread]
      · left
        have hf2 : (PRRepo.GetAssignedReviewers s prID).any (fun r => r == oldUserID) = false :=
          Bool.eq_false_iff.mpr hf
        simp [hf2]

/-! ## The invariant of reachable stores -/

theorem inv_empty : Store.Inv Store.empty := by
  refine { users_key := ?_, prs_key := ?_, teams_key := ?_, reviewers_key := ?_,
           reviewers_ref := ?_, status_known := ?_, merged_time := ?_, author_free := ?_ } <;>
    simp [Store.empty]

/-- A request that leaves both PR tables alone and keeps the keys of `users`
and `teams` keeps the invariant. -/
theorem inv_of_same_prs {s t : Store} (h : Store.Inv s)
    (hp : t.pull_requests = s.pull_requests) (hr : t.pr_reviewers = s.pr_reviewers)
    (hu : (t.users.map (fun u => u.UserID)).Nodup) (ht : t.teams.Nodup) : Store.Inv t := by
  refine { users_key := hu, prs_key := ?_, teams_key := ht, reviewers_key := ?_,
           reviewers_ref := ?_, status_known := ?_, merged_time := ?_, author_free := ?_ }
  · rw [hp]; exact h.prs_key
  · rw [hr]; exact h.reviewers_key
  · rw [hp, hr]; exact h.reviewers_ref
  · rw [hp]; exact h.status_known
  · rw [hp]; exact h.merged_time
  · rw [hp, hr]; exact h.author_free

/-- One upsert keeps `user_id` a key. -/
theorem upsertUser_key (teamName : String) (rows : List User) (u : User)
    (h : (rows.map (fun r => r.UserID)).Nodup) :
    ((TeamRepo.upsertUser teamName rows u).map (fun r => r.UserID)).Nodup := by
  unfold TeamRepo.upsertUser
  split
  · have heq : (rows.map (fun r =>
        if r.UserID == u.UserID then
          { r with Username := u.Username, TeamName := teamName, IsActive := u.IsActive }
        else r)).map (fun r => r.UserID) = rows.map (fun r => r.UserID) := by
      rw [List.map_map]
      apply List.map_congr_left
      intro r _
      simp only [Function.comp]
      split <;> rfl
    rw [heq]; exact h
  · rename_i hany
    rw [List.map_append, List.map_singleton]
    refine List.Nodup.append h (List.nodup_singleton _) ?_
    intro x hx hx2
    rw [List.mem_singleton] at hx2
    subst hx2
    obtain ⟨r, hr, hre⟩ := List.mem_map.mp hx
    apply hany
    exact List.any_eq_true.mpr ⟨r, hr, by simpa using hre⟩

/-- The batch of upserts keeps `user_id` a key. -/
theorem upsertUsers_key (teamName : String) (users rows : List User)
    (h : (rows.map (fun r => r.UserID)).Nodup) :
    ((users.foldl (TeamRepo.upsertUser teamName) rows).map (fun r => r.UserID)).Nodup := by
  induction users generalizing rows with
  | nil => exact h
  | cons u users ih => exact ih _ (upsertUser_key teamName rows u h)

/-- Function `CreateTeam` leaves the store as it was, or the name is new and the store
has the name added and the members upserted. -/
theorem createTeam_store (s : Store) (teamName : String) (members : List User) :
    (TeamUsecase.CreateTeam s teamName members).2 = s ∨
    (teamName ∉ s.teams ∧
      (TeamUsecase.CreateTeam s teamName members).2 =
        { s with teams := s.teams ++ [teamName],
                 users := members.foldl (TeamRepo.upsertUser teamName) s.users }) := by
  by_cases hex : teamName ∈ s.teams
  · left
    have hrepo : TeamRepo.CreateTeam s teamName = (.error .ErrTeamExists, s) := by
      simp [TeamRepo.CreateTeam, hex]
    simp [TeamUsecase.CreateTeam, hrepo]
  · right
    refine ⟨hex, ?_⟩
    have hrepo : TeamRepo.CreateTeam s teamName =
        (.ok (), { s with teams := s.teams ++ [teamName] }) := by
      simp [TeamRepo.CreateTeam, hex]
    simp only [TeamUsecase.CreateTeam, hrepo]
    split <;> rfl

theorem inv_createTeam {s : Store} (h : Store.Inv s) (teamName : String) (members : List User) :
    Store.Inv (TeamUsecase.CreateTeam s teamName members).2 := by
  rcases createTeam_store s teamName members with he | ⟨hnew, he⟩
  · rw [he]; exact h
  · rw [he]
    refine inv_of_same_prs h rfl rfl (upsertUsers_key _ _ _ h.users_key) ?_
    refine List.Nodup.append h.teams_key (List.nodup_singleton _) ?_
    intro x hx hx2
    rw [List.mem_singleton] at hx2
    exact hnew (hx2 ▸ hx)

theorem inv_setActive {s : Store} (h : Store.Inv s) (id : String) (active : Bool) :
    Store.Inv (UserUsecase.SetActive s id active).2 := by
  have he : (UserUsecase.SetActive s id active).2 =
      { s with users :=
          (s.users.map (fun u => if u.UserID == id then { u with IsActive := active } else u)) } := by
    simp only [UserUsecase.SetActive, UserRepo.SetActive]
    split <;> rfl
  rw [he]
  refine inv_of_same_prs h rfl rfl ?_ h.teams_key
  have heq : (s.users.map
      (fun u => if u.UserID == id then { u with IsActive := active } else u)).map
      (fun u => u.UserID) = s.users.map (fun u => u.UserID) := by
    rw [List.map_map]
    apply List.map_congr_left
    intro r _
    simp only [Function.comp]
    split <;> rfl
  show (List.map _ (List.map _ s.users)).Nodup
  rw [heq]; exact h.users_key

theorem inv_merge {s : Store} (h : Store.Inv s) (now : Nat) (prID : String) :
    Store.Inv (PRUsecase.Merge s now prID).2 := by
  have hids : (s.pull_requests.map (PRRepo.mergedRow now prID)).map (fun p => p.pull_request_id)
      = s.pull_requests.map (fun p => p.pull_request_id) := by
    rw [List.map_map]
    apply List.map_congr_left
    intro p _
    exact mergedRow_id now prID p
  simp only [PRUsecase.Merge, setMerged_store]
  refine { users_key := h.users_key, prs_key := ?_, teams_key := h.teams_key,
           reviewers_key := h.reviewers_key,
           reviewers_ref := ?_, status_known := ?_, merged_time := ?_, author_free := ?_ }
  · show (List.map _ (List.map _ s.pull_requests)).Nodup
    rw [hids]; exact h.prs_key
  · intro r hr
    show r.1 ∈ List.map _ (List.map _ s.pull_requests)
    rw [hids]; exact h.reviewers_ref r hr
  · intro q hq
    obtain ⟨p, hp, rfl⟩ := List.mem_map.mp hq
    unfold PRRepo.mergedRow
    split
    · right; rfl
    · exact h.status_known p hp
  · intro q hq
    obtain ⟨p, hp, rfl⟩ := List.mem_map.mp hq
    unfold PRRepo.mergedRow
    split
    · intro _
      cases hm : p.merged_at <;> simp [Option.orElse]
    · exact h.merged_time p hp
  · intro q hq
    obtain ⟨p, hp, rfl⟩ := List.mem_map.mp hq
    rw [mergedRow_id, mergedRow_author]
    exact h.author_free p hp

/-- No row of `pull_requests` has the id when the existence probe is false. -/
theorem not_mem_ids_of_any_false {s : Store} {prID : String}
    (h : s.pull_requests.any (fun p => p.pull_request_id == prID) = false) :
    prID ∉ s.pull_requests.map (fun p => p.pull_request_id) := by
  intro hm
  obtain ⟨p, hp, hpe⟩ := List.mem_map.mp hm
  have := List.any_eq_false.mp h p hp
  simp [hpe] at this

theorem inv_createPR {s : Store} (h : Store.Inv s) (rnd : User → Nat) (createdAt : Option Nat)
    (prID name authorID : String) :
    Store.Inv (PRUsecase.CreatePR s rnd createdAt prID name authorID).2 := by
  rcases createPR_cases s rnd createdAt prID name authorID with ⟨he, -⟩ | ⟨author, ha, hany, he, -⟩
  · rw [he]; exact h
  · rw [he]
    have hnew := not_mem_ids_of_any_false hany
    have hauth := (getUser_ok ha).2
    have hrev_nodup := listActive_ids_nodup s rnd author.TeamName [author.UserID] 2 h.users_key
    have hrev_free : authorID ∉ (UserRepo.ListActiveInTeamExcept s rnd author.TeamName
        [author.UserID] 2).map (fun c => c.UserID) := by
      intro hm
      obtain ⟨c, hc, hce⟩ := List.mem_map.mp hm
      have := (mem_listActive hc).2.2.2
      apply this
      rw [hce, hauth]
      exact List.mem_singleton_self _
    refine { users_key := h.users_key, prs_key := ?_, teams_key := h.teams_key,
             reviewers_key := ?_, reviewers_ref := ?_, status_known := ?_,
             merged_time := ?_, author_free := ?_ }
    · show (List.map _ (s.pull_requests ++ [_])).Nodup
      rw [List.map_append, List.map_singleton]
      refine List.Nodup.append h.prs_key (List.nodup_singleton _) ?_
      intro x hx hx2
      rw [List.mem_singleton] at hx2
      have hx3 : x = prID := hx2
      exact hnew (hx3 ▸ hx)
    · show (s.pr_reviewers ++ List.map _ _).Nodup
      refine List.Nodup.append h.reviewers_key ?_ ?_
      · exact hrev_nodup.map (fun a b hab => (Prod.mk.inj hab).2)
      · intro r hr hr2
        obtain ⟨x, -, hxe⟩ := List.mem_map.mp hr2
        have := h.reviewers_ref r hr
        rw [← hxe] at this
        exact hnew this
    · intro r hr
      show r.1 ∈ List.map _ (s.pull_requests ++ [_])
      rw [List.map_append, List.map_singleton]
      rcases List.mem_append.mp hr with hr | hr
      · exact List.mem_append_left _ (h.reviewers_ref r hr)
      · obtain ⟨x, -, hxe⟩ := List.mem_map.mp hr
        rw [← hxe]
        exact List.mem_append_right _ (List.mem_singleton_self _)
    · intro p hp
      rcases List.mem_append.mp hp with hp | hp
      · exact h.status_known p hp
      · rw [List.mem_singleton] at hp; subst hp; left; rfl
    · intro p hp
      rcases List.mem_append.mp hp with hp | hp
      · exact h.merged_time p hp
      · rw [List.mem_singleton] at hp; subst hp
        intro hc
        have hc2 : ("OPEN" : String) = "MERGED" := hc
        exact absurd hc2 (by decide)
    · intro p hp hmem
      rcases List.mem_append.mp hp with hp | hp
      · have hpid : p.pull_request_id ∈ s.pull_requests.map (fun p => p.pull_request_id) :=
          List.mem_map.mpr ⟨p, hp, rfl⟩
        rcases List.mem_append.mp hmem with hm | hm
        · exact h.author_free p hp hm
        · obtain ⟨x, -, hxe⟩ := List.mem_map.mp hm
          have : prID = p.pull_request_id := (Prod.mk.inj hxe).1
          exact hnew (this ▸ hpid)
      · rw [List.mem_singleton] at hp; subst hp
        rcases List.mem_append.mp hmem with hm | hm
        · exact hnew (h.reviewers_ref _ hm)
        · obtain ⟨x, hx, hxe⟩ := List.mem_map.mp hm
          have : x = authorID := (Prod.mk.inj hxe).2
          exact hrev_free (this ▸ hx)

/-- The id `Reassign` selects is not the author of the PR. -/
theorem next_ne_author {s : Store} {rnd : User → Nat} {teamName oldUserID author next : String}
    {assigned : List String}
    (hn : next = PRUsecase.Reassign.next oldUserID assigned
      (UserRepo.ListActiveInTeamExcept s rnd teamName (assigned ++ [author]) 20))
    (hne : next ≠ "") : next ≠ author ∧ next ≠ oldUserID ∧ next ∉ assigned := by
  rcases next_spec oldUserID assigned
    (UserRepo.ListActiveInTeamExcept s rnd teamName (assigned ++ [author]) 20) with h | h
  · exact absurd (hn.trans h) hne
  · rw [← hn] at h
    obtain ⟨⟨c, hc, hce⟩, h2, h3⟩ := h
    refine ⟨?_, h2, h3⟩
    intro heq
    have := (mem_listActive hc).2.2.2
    apply this
    rw [hce, heq]
    exact List.mem_append_right _ (List.mem_singleton_self _)

theorem inv_reassign {s : Store} (h : Store.Inv s) (rnd : User → Nat) (prID oldUserID : String) :
    Store.Inv (PRUsecase.Reassign s rnd prID oldUserID).2 := by
  rcases reassign_cases s rnd prID oldUserID with
    ⟨he, -⟩ | ⟨pr, oldUser, next, hg, -, -, -, hn, hne, he, -⟩
  · rw [he]; exact h
  · rw [he]
    obtain ⟨hna, -, hnas⟩ := next_ne_author hn hne
    obtain ⟨p0, hp0, hpr⟩ := (getByID_ok_iff s prID pr).mp hg
    have hp0mem := List.mem_of_find?_eq_some hp0
    have hp0id : p0.pull_request_id = prID := by simpa using List.find?_some hp0
    have hauthor : pr.AuthorID = p0.author_id := by rw [hpr]
    have hfresh : (prID, next) ∉ s.pr_reviewers := by
      intro hm
      apply hnas
      unfold PRRepo.GetAssignedReviewers
      exact List.mem_map.mpr ⟨(prID, next), List.mem_filter.mpr ⟨hm, by simp⟩, rfl⟩
    refine { users_key := h.users_key, prs_key := h.prs_key, teams_key := h.teams_key,
             reviewers_key := ?_, reviewers_ref := ?_, status_known := h.status_known,
             merged_time := h.merged_time, author_free := ?_ }
    · show (List.filter _ s.pr_reviewers ++ [_]).Nodup
      refine List.Nodup.append (h.reviewers_key.filter _) (List.nodup_singleton _) ?_
      intro r hr hr2
      rw [List.mem_singleton] at hr2
      subst hr2
      exact hfresh (List.mem_of_mem_filter hr)
    · intro r hr
      rcases List.mem_append.mp hr with hr | hr
      · exact h.reviewers_ref r (List.mem_of_mem_filter hr)
      · rw [List.mem_singleton] at hr; subst hr
        exact List.mem_map.mpr ⟨p0, hp0mem, hp0id⟩
    · intro p hp hmem
      rcases List.mem_append.mp hmem with hm | hm
      · exact h.author_free p hp (List.mem_of_mem_filter hm)
      · rw [List.mem_singleton] at hm
        have h1 : p.pull_request_id = prID := (Prod.mk.inj hm).1
        have h2 : p.author_id = next := (Prod.mk.inj hm).2
        have hpp : p = p0 :=
          List.inj_on_of_nodup_map h.prs_key hp hp0mem (h1.trans hp0id.symm)
        apply hna
        rw [← h2, hpp, hauthor]

theorem inv_run {s : Store} (h : Store.Inv s) (op : Op) : Store.Inv (op.run s) := by
  cases op with
  | CreateTeam teamName members => exact inv_createTeam h teamName members
  | SetActive id active => exact inv_setActive h id active
  | CreatePR rnd createdAt prID name authorID => exact inv_createPR h rnd createdAt prID name authorID
  | Reassign rnd prID oldUserID => exact inv_reassign h rnd prID oldUserID
  | Merge now prID => exact inv_merge h now prID

theorem inv_runOps {s : Store} (h : Store.Inv s) (ops : List Op) : Store.Inv (runOps s ops) := by
  induction ops generalizing s with
  | nil => exact h
  | cons op ops ih => exact ih (inv_run h op)

/-- Every reachable store satisfies the invariant, and with it the key
constraints. -/
theorem reachable_inv {s : Store} (h : Reachable s) : Store.Inv s := by
  obtain ⟨ops, rfl⟩ := h
  exact inv_runOps inv_empty ops

/-! ## Lemmas for the terminal state and for the statistics -/

/-- Function `getByID` reads the first row with the id and the reviewer rows of the id. -/
theorem getByID_congr {s t : Store} {id : String}
    (hp : t.pull_requests.find? (fun p => p.pull_request_id == id)
      = s.pull_requests.find? (fun p => p.pull_request_id == id))
    (hr : t.pr_reviewers.filter (fun r => r.1 == id) = s.pr_reviewers.filter (fun r => r.1 == id)) :
    PRRepo.getByID t id = PRRepo.getByID s id := by
  unfold PRRepo.getByID PRRepo.GetAssignedReviewers
  rw [hp, hr]

/-- One request leaves a merged PR of a store that satisfies the invariant
exactly as it was. -/
theorem merged_step {s : Store} (h : Store.Inv s) {prID : String} {pr : PullRequest}
    (hget : PRRepo.getByID s prID = .ok pr) (hst : pr.Status = StatusMerged) (op : Op) :
    PRRepo.getByID (op.run s) prID = .ok pr := by
  rw [← hget]
  cases op with
  | CreateTeam teamName members =>
    rcases createTeam_store s teamName members with he | ⟨-, he⟩ <;>
      (simp only [Op.run]; rw [he])
    exact getByID_congr rfl rfl
  | SetActive id active =>
    have he : (UserUsecase.SetActive s id active).2 =
        { s with users :=
            (s.users.map (fun u => if u.UserID == id then { u with IsActive := active } else u)) } := by
      simp only [UserUsecase.SetActive, UserRepo.SetActive]
      split <;> rfl
    simp only [Op.run]; rw [he]
    exact getByID_congr rfl rfl
  | CreatePR rnd createdAt prID2 name authorID =>
    simp only [Op.run]
    rcases createPR_cases s rnd createdAt prID2 name authorID with
      ⟨he, -⟩ | ⟨author, -, hany, he, -⟩
    · rw [he]
    · rw [he]
      have hne : prID2 ≠ prID := by
        intro heq
        rw [heq, getByID_ok_any hget] at hany
        cases hany
      obtain ⟨p, hp, -⟩ := (getByID_ok_iff s prID pr).mp hget
      apply getByID_congr
      · show List.find? _ (s.pull_requests ++ [_]) = _
        rw [List.find?_append, hp]; rfl
      · show List.filter _ (s.pr_reviewers ++ List.map _ _) = _
        rw [List.filter_append]
        have : List.filter (fun r : String × String => r.1 == prID)
            (List.map (fun rid => (prID2, rid))
              (List.map (fun c => c.UserID)
                (UserRepo.ListActiveInTeamExcept s rnd author.TeamName [author.UserID] 2))) = [] := by
          rw [List.filter_eq_nil_iff]
          intro r hr
          obtain ⟨x, -, hxe⟩ := List.mem_map.mp hr
          rw [← hxe]
          simpa using hne
        rw [this, List.append_nil]
  | Reassign rnd prID2 oldUserID =>
    simp only [Op.run]
    rcases reassign_cases s rnd prID2 oldUserID with
      ⟨he, -⟩ | ⟨pr2, oldUser, next, hg, hnm, -, -, -, -, he, -⟩
    · rw [he]
    · rw [he]
      have hne : prID ≠ prID2 := by
        intro heq
        rw [← heq, hget] at hg
        cases hg
        exact hnm hst
      refine getByID_congr ?_ ?_
      · rfl
      · exact replace_reviewers_other _ _ _ _ _ hne
  | Merge now prID2 =>
    simp only [Op.run, PRUsecase.Merge, setMerged_store]
    obtain ⟨p, hp, hpr⟩ := (getByID_ok_iff s prID pr).mp hget
    have hpst : p.status = StatusMerged := by rw [← hst, hpr]
    have hfix : PRRepo.mergedRow now prID2 p = p :=
      mergedRow_fixed now prID2 p hpst
        (h.merged_time p (List.mem_of_find?_eq_some hp) hpst)
    refine getByID_congr ?_ ?_
    · show List.find? _ (List.map _ s.pull_requests) = _
      rw [find?_map_keep_id _ (mergedRow_id now prID2), hp, Option.map_some', hfix]
    · rfl

/-- The loop `res[status] = count` over grouped rows `(st, c st)`: a key of
the rows maps to its count, any other key is as initialised. -/
theorem foldl_set_counts (c : String → Nat) (ks : List String) (init : String → Option Nat)
    (k : String) :
    ((ks.map (fun st => (st, c st))).foldl
        (fun res row => fun k => if k = row.1 then some row.2 else res k) init) k
      = if k ∈ ks then some (c k) else init k := by
  induction ks generalizing init with
  | nil => simp
  | cons st ks ih =>
    simp only [List.map_cons, List.foldl_cons, ih, List.mem_cons]
    by_cases h1 : k ∈ ks
    · simp [h1]
    · by_cases h2 : k = st
      · simp [h2]
      · simp [h1, h2]

/-- The map of `StatsByStatus` at one of the two initial keys is the number of
rows with that status. -/
theorem stats_at_initial_key (s : Store) (k : PRStatus) (hk : k = StatusOpen ∨ k = StatusMerged) :
    PRRepo.StatsByStatus s k
      = some (s.pull_requests.filter (fun p => p.status == k)).length := by
  unfold PRRepo.StatsByStatus PRRepo.statusCounts
  rw [foldl_set_counts (fun st => (s.pull_requests.filter (fun p => p.status == st)).length)]
  by_cases hm : k ∈ (s.pull_requests.map (fun p => p.status)).dedup
  · rw [if_pos hm]
  · rw [if_neg hm]
    have hempty : s.pull_requests.filter (fun p => p.status == k) = [] := by
      rw [List.filter_eq_nil_iff]
      intro p hp hpe
      apply hm
      rw [List.mem_dedup]
      exact List.mem_map.mpr ⟨p, hp, by simpa using hpe⟩
    rw [hempty]
    rcases hk with hk | hk <;> simp [hk, StatusOpen, StatusMerged]

/-- When every status is `OPEN` or `MERGED`, the two counts add up to the
number of rows. -/
theorem open_plus_merged (rows : List PRRow)
    (h : ∀ p ∈ rows, p.status = StatusOpen ∨ p.status = StatusMerged) :
    (rows.filter (fun p => p.status == StatusOpen)).length
      + (rows.filter (fun p => p.status == StatusMerged)).length = rows.length := by
  induction rows with
  | nil => rfl
  | cons p rows ih =>
    have ih2 := ih (fun q hq => h q (List.mem_cons_of_mem _ hq))
    rcases h p (List.mem_cons_self _ _) with hp | hp
    · have hno : ¬ (StatusOpen = StatusMerged) := by decide
      simp [List.filter_cons, hp, hno]
      omega
    · have hno : ¬ (StatusMerged = StatusOpen) := by decide
      simp [List.filter_cons, hp, hno]
      omega

/-! ## Lemmas for reviewer lists -/

/-- Removing an element that occurs in a duplicate-free list shortens it by one. -/
theorem length_filter_ne_of_nodup (l : List String) (a : String) (hn : l.Nodup) (ha : a ∈ l) :
    (l.filter (fun x => x != a)).length + 1 = l.length := by
  induction l with
  | nil => cases ha
  | cons b l ih =>
    rw [List.nodup_cons] at hn
    by_cases hba : b = a
    · subst hba
      have hall : l.filter (fun x => x != b) = l := by
        rw [List.filter_eq_self]
        intro x hx
        have : x ≠ b := fun hxb => hn.1 (hxb ▸ hx)
        simpa using this
      simp [List.filter_cons, hall]
    · have ha2 : a ∈ l := by
        rcases List.mem_cons.mp ha with h | h
        · exact absurd h.symm hba
        · exact h
      have := ih hn.2 ha2
      simp [List.filter_cons, hba]
      omega

/-- When a pair occurs once in `pr_reviewers`, the reviewer list of a PR has
no duplicates. -/
theorem assigned_nodup (s : Store) (prID : String) (hk : s.pr_reviewers.Nodup) :
    (PRRepo.GetAssignedReviewers s prID).Nodup := by
  unfold PRRepo.GetAssignedReviewers
  refine List.Nodup.map_on ?_ (hk.filter _)
  intro x hx y hy hxy
  have hx1 : x.1 = prID := by simpa using (List.mem_filter.mp hx).2
  have hy1 : y.1 = prID := by simpa using (List.mem_filter.mp hy).2
  exact Prod.ext (hx1.trans hy1.symm) hxy

/-- The reviewer list of `getByID` is `GetAssignedReviewers`. -/
theorem getByID_reviewers {s : Store} {id : String} {pr : PullRequest}
    (h : PRRepo.getByID s id = .ok pr) :
    pr.AssignedReviewers = PRRepo.GetAssignedReviewers s id := by
  obtain ⟨p, -, hpr⟩ := (getByID_ok_iff s id pr).mp h
  rw [hpr]

/-- The reviewer rows of a new PR id in a store whose reviewer rows refer to
existing PRs are the rows just inserted. -/
theorem new_pr_reviewers (s : Store) (prID : String) (revs : List String)
    (href : ∀ r ∈ s.pr_reviewers, r.1 ∈ s.pull_requests.map (fun p => p.pull_request_id))
    (hnew : prID ∉ s.pull_requests.map (fun p => p.pull_request_id)) :
    ((s.pr_reviewers ++ revs.map (fun rid => (prID, rid))).filter (fun r => r.1 == prID)).map
      (fun r => r.2) = revs := by
  have hold : s.pr_reviewers.filter (fun r => r.1 == prID) = [] := by
    rw [List.filter_eq_nil_iff]
    intro r hr hre
    have : r.1 = prID := by simpa using hre
    exact hnew (this ▸ href r hr)
  have hnew2 : (revs.map (fun rid => (prID, rid))).filter (fun r => r.1 == prID)
      = revs.map (fun rid => (prID, rid)) := by
    rw [List.filter_eq_self]
    intro r hr
    obtain ⟨x, -, hxe⟩ := List.mem_map.mp hr
    rw [← hxe]
    simp
  rw [List.filter_append, hold, hnew2, List.nil_append, List.map_map]
  simp [Function.comp]

/-! ## Reviewer rows name users -/

/-- One upsert keeps every user id that was in the table. -/
theorem upsertUser_ids_mono (teamName : String) (rows : List User) (u : User) (x : String)
    (hx : x ∈ rows.map (fun r => r.UserID)) :
    x ∈ (TeamRepo.upsertUser teamName rows u).map (fun r => r.UserID) := by
  unfold TeamRepo.upsertUser
  split
  · have heq : (rows.map (fun r =>
        if r.UserID == u.UserID then
          { r with Username := u.Username, TeamName := teamName, IsActive := u.IsActive }
        else r)).map (fun r => r.UserID) = rows.map (fun r => r.UserID) := by
      rw [List.map_map]
      apply List.map_congr_left
      intro r _
      simp only [Function.comp]
      split <;> rfl
    rw [heq]; exact hx
  · rw [List.map_append]
    exact List.mem_append_left _ hx

/-- The batch of upserts keeps every user id that was in the table. -/
theorem upsertUsers_ids_mono (teamName : String) (users rows : List User) (x : String)
    (hx : x ∈ rows.map (fun r => r.UserID)) :
    x ∈ (users.foldl (TeamRepo.upsertUser teamName) rows).map (fun r => r.UserID) := by
  induction users generalizing rows with
  | nil => exact hx
  | cons u users ih => exact ih _ (upsertUser_ids_mono teamName rows u x hx)

/-- Function `SetActive` leaves both PR tables and the user ids as they were. -/
theorem setActive_store (s : Store) (id : String) (active : Bool) :
    (UserUsecase.SetActive s id active).2.pull_requests = s.pull_requests ∧
    (UserUsecase.SetActive s id active).2.pr_reviewers = s.pr_reviewers ∧
    (UserUsecase.SetActive s id active).2.users.map (fun u => u.UserID)
      = s.users.map (fun u => u.UserID) := by
  have he : (UserUsecase.SetActive s id active).2 =
      { s with users :=
          (s.users.map (fun u => if u.UserID == id then { u with IsActive := active } else u)) } := by
    simp only [UserUsecase.SetActive, UserRepo.SetActive]
    split <;> rfl
  rw [he]
  refine ⟨rfl, rfl, ?_⟩
  show List.map _ (List.map _ s.users) = _
  rw [List.map_map]
  apply List.map_congr_left
  intro r _
  simp only [Function.comp]
  split <;> rfl

/-- One request keeps every reviewer row naming a user. -/
theorem reviewersAreUsers_run {s : Store} (h : Store.ReviewersAreUsers s) (op : Op) :
    Store.ReviewersAreUsers (op.run s) := by
  cases op with
  | CreateTeam teamName members =>
    simp only [Op.run]
    rcases createTeam_store s teamName members with he | ⟨-, he⟩
    · rw [he]; exact h
    · rw [he]
      intro r hr
      exact upsertUsers_ids_mono teamName members s.users r.2 (h r hr)
  | SetActive id active =>
    simp only [Op.run]
    obtain ⟨-, hr, hu⟩ := setActive_store s id active
    intro r hmem
    rw [hu]
    rw [hr] at hmem
    exact h r hmem
  | CreatePR rnd createdAt prID name authorID =>
    simp only [Op.run]
    rcases createPR_cases s rnd createdAt prID name authorID with
      ⟨he, -⟩ | ⟨author, -, -, he, -⟩
    · rw [he]; exact h
    · rw [he]
      intro r hr
      rcases List.mem_append.mp hr with hr | hr
      · exact h r hr
      · obtain ⟨x, hx, hxe⟩ := List.mem_map.mp hr
        obtain ⟨c, hc, hce⟩ := List.mem_map.mp hx
        rw [← hxe, ← hce]
        exact List.mem_map.mpr ⟨c, (mem_listActive hc).1, rfl⟩
  | Reassign rnd prID oldUserID =>
    simp only [Op.run]
    rcases reassign_cases s rnd prID oldUserID with
      ⟨he, -⟩ | ⟨pr, oldUser, next, -, -, -, -, hn, hne, he, -⟩
    · rw [he]; exact h
    · rw [he]
      intro r hr
      rcases List.mem_append.mp hr with hr | hr
      · exact h r (List.mem_of_mem_filter hr)
      · rw [List.mem_singleton] at hr
        subst hr
        rcases next_spec oldUserID (PRRepo.GetAssignedReviewers s prID)
          (UserRepo.ListActiveInTeamExcept s rnd oldUser.TeamName
            (PRRepo.GetAssignedReviewers s prID ++ [pr.AuthorID]) 20) with h0 | ⟨⟨c, hc, hce⟩, -, -⟩
        · exact absurd (hn.trans h0) hne
        · show next ∈ _
          rw [hn, ← hce]
          exact List.mem_map.mpr ⟨c, (mem_listActive hc).1, rfl⟩
  | Merge now prID =>
    simp only [Op.run, PRUsecase.Merge, setMerged_store]
    exact h

/-- In every reachable store the reviewer rows name users. -/
theorem reachable_reviewersAreUsers {s : Store} (h : Reachable s) :
    Store.ReviewersAreUsers s := by
  obtain ⟨ops, rfl⟩ := h
  have hgen : ∀ (ops : List Op) (t : Store), Store.ReviewersAreUsers t →
      Store.ReviewersAreUsers (runOps t ops) := by
    intro ops
    induction ops with
    | nil => intro t ht; exact ht
    | cons op ops ih => intro t ht; exact ih _ (reviewersAreUsers_run ht op)
  apply hgen
  intro r hr
  cases hr

/-! ## Lemmas on the upsert and on the member list -/

/-- The selection loop returns the id of the first candidate that is neither
`oldUserID` nor assigned. -/
theorem next_first (oldUserID : String) (assigned : List String) (pre post : List User)
    (c : User) (hpre : ∀ d ∈ pre, d.UserID = oldUserID ∨ d.UserID ∈ assigned)
    (hc1 : c.UserID ≠ oldUserID) (hc2 : c.UserID ∉ assigned) :
    PRUsecase.Reassign.next oldUserID assigned (pre ++ c :: post) = c.UserID := by
  induction pre with
  | nil =>
    have hany : assigned.any (fun a => a == c.UserID) = false := by
      rw [List.any_eq_false]
      intro x hx hxe
      have : x = c.UserID := by simpa using hxe
      exact hc2 (this ▸ hx)
    simp [PRUsecase.Reassign.next, hc1, hany]
  | cons d pre ih =>
    have ih2 := ih (fun e he => hpre e (List.mem_cons_of_mem _ he))
    rcases hpre d (List.mem_cons_self _ _) with h | h
    · simp [PRUsecase.Reassign.next, h, ih2]
    · have hany : assigned.any (fun a => a == d.UserID) = true :=
        List.any_eq_true.mpr ⟨_, h, by simp⟩
      by_cases hd : d.UserID = oldUserID
      · simp [PRUsecase.Reassign.next, hd, ih2]
      · have hb : (d.UserID == oldUserID) = false := by simpa using hd
        simp only [List.cons_append, PRUsecase.Reassign.next, hb, Bool.false_eq_true, if_false,
          hany, if_true]
        exact ih2

/-- The selection loop returns `""` when every candidate is `oldUserID` or
assigned. -/
theorem next_none (oldUserID : String) (assigned : List String) (cands : List User)
    (h : ∀ d ∈ cands, d.UserID = oldUserID ∨ d.UserID ∈ assigned) :
    PRUsecase.Reassign.next oldUserID assigned cands = "" := by
  induction cands with
  | nil => rfl
  | cons d cands ih =>
    have ih2 := ih (fun e he => h e (List.mem_cons_of_mem _ he))
    by_cases hd : d.UserID = oldUserID
    · simp [PRUsecase.Reassign.next, hd, ih2]
    · have hb : (d.UserID == oldUserID) = false := by simpa using hd
      have hin : d.UserID ∈ assigned := by
        rcases h d (List.mem_cons_self _ _) with h1 | h1
        · exact absurd h1 hd
        · exact h1
      have hany : assigned.any (fun a => a == d.UserID) = true :=
        List.any_eq_true.mpr ⟨_, hin, by simp⟩
      simp only [PRUsecase.Reassign.next, hb, Bool.false_eq_true, if_false, hany, if_true, ih2]

/-- Function `Reassign` on a PR that is not merged, for an assigned
`oldUserID` that resolves: `ErrNoCandidate` and the same store when the
selection loop ends with `""`, otherwise the replacement by what the loop
selected. -/
theorem reassign_open_assigned (s : Store) (rnd : User → Nat) (prID oldUserID : String)
    (pr : PullRequest) (oldUser : User) (next : String)
    (hget : PRRepo.getByID s prID = .ok pr) (hst : pr.Status ≠ StatusMerged)
    (hmem : oldUserID ∈ PRRepo.GetAssignedReviewers s prID)
    (hu : UserRepo.GetByID s oldUserID = .ok oldUser)
    (hn : next = PRUsecase.Reassign.next oldUserID (PRRepo.GetAssignedReviewers s prID)
      (UserRepo.ListActiveInTeamExcept s rnd oldUser.TeamName
        (PRRepo.GetAssignedReviewers s prID ++ [pr.AuthorID]) 20)) :
    (next = "" →
      PRUsecase.Reassign s rnd prID oldUserID = (.error .ErrNoCandidate, s)) ∧
    (next ≠ "" →
      PRUsecase.Reassign s rnd prID oldUserID =
        (.ok ({ pr with AssignedReviewers :=
                  (pr.AssignedReviewers.filter (fun x => x != oldUserID)) ++ [next] }, next),
         { s with
           pr_reviewers := s.pr_reviewers.filter (fun r => !(r.1 == prID && r.2 == oldUserID))
             ++ [(prID, next)] })) := by
  have hf : (PRRepo.GetAssignedReviewers s prID).any (fun r => r == oldUserID) = true :=
    List.any_eq_true.mpr ⟨_, hmem, by simp⟩
  constructor
  · intro h0
    rw [hn] at h0
    simp only [PRUsecase.Reassign, PRRepo.GetByIDForUpdate, hget, hst, if_false, hf,
      Bool.not_true, Bool.false_eq_true, hu, h0, if_true]
  · intro hne
    obtain ⟨p, hp, hpr⟩ := (getByID_ok_iff s prID pr).mp hget
    have hrev : pr.AssignedReviewers = PRRepo.GetAssignedReviewers s prID := by
      rw [hpr]
    have hread : PRRepo.getByID
        { s with pr_reviewers :=
            s.pr_reviewers.filter (fun r => !(r.1 == prID && r.2 == oldUserID)) ++
              [(prID, next)] } prID
        = .ok { pr with AssignedReviewers :=
            (pr.AssignedReviewers.filter (fun x => x != oldUserID)) ++ [next] } := by
      rw [getByID_ok_iff]
      refine ⟨p, hp, ?_⟩
      rw [hrev, hpr]
      simp only [PRRepo.GetAssignedReviewers, replace_reviewers_same]
    have hne2 := hne
    rw [hn] at hne2
    simp only [PRUsecase.Reassign, PRRepo.GetByIDForUpdate, hget, hst, if_false, hf,
      Bool.not_true, Bool.false_eq_true, hu, hne2, PRRepo.ReplaceReviewer]
    rw [← hn, hread]

/-- When the first candidate of the pool that is neither `oldUserID` nor
assigned has a non-empty id, `Reassign` replaces `oldUserID` by it and returns
its id. -/
theorem reassign_first_candidate (s : Store) (rnd : User → Nat) (prID oldUserID : String)
    (pr : PullRequest) (oldUser : User) (pre post : List User) (c : User)
    (hget : PRRepo.getByID s prID = .ok pr) (hst : pr.Status ≠ StatusMerged)
    (hmem : oldUserID ∈ PRRepo.GetAssignedReviewers s prID)
    (hu : UserRepo.GetByID s oldUserID = .ok oldUser)
    (hpool : UserRepo.ListActiveInTeamExcept s rnd oldUser.TeamName
      (PRRepo.GetAssignedReviewers s prID ++ [pr.AuthorID]) 20 = pre ++ c :: post)
    (hpre : ∀ d ∈ pre, d.UserID = oldUserID ∨ d.UserID ∈ PRRepo.GetAssignedReviewers s prID)
    (hc1 : c.UserID ≠ oldUserID) (hc2 : c.UserID ∉ PRRepo.GetAssignedReviewers s prID)
    (hc3 : c.UserID ≠ "") :
    PRUsecase.Reassign s rnd prID oldUserID =
      (.ok ({ pr with AssignedReviewers :=
                (pr.AssignedReviewers.filter (fun x => x != oldUserID)) ++ [c.UserID] }, c.UserID),
       PRRepo.ReplaceReviewer s prID oldUserID c.UserID |>.2) := by
  have hn : c.UserID = PRUsecase.Reassign.next oldUserID (PRRepo.GetAssignedReviewers s prID)
      (UserRepo.ListActiveInTeamExcept s rnd oldUser.TeamName
        (PRRepo.GetAssignedReviewers s prID ++ [pr.AuthorID]) 20) := by
    rw [hpool, next_first oldUserID _ pre post c hpre hc1 hc2]
  exact (reassign_open_assigned s rnd prID oldUserID pr oldUser c.UserID hget hst hmem hu hn).2 hc3

/-- When no candidate of the pool is neither `oldUserID` nor assigned,
`Reassign` fails with `ErrNoCandidate` and leaves the store as it was. -/
theorem reassign_no_candidate (s : Store) (rnd : User → Nat) (prID oldUserID : String)
    (pr : PullRequest) (oldUser : User)
    (hget : PRRepo.getByID s prID = .ok pr) (hst : pr.Status ≠ StatusMerged)
    (hmem : oldUserID ∈ PRRepo.GetAssignedReviewers s prID)
    (hu : UserRepo.GetByID s oldUserID = .ok oldUser)
    (hall : ∀ d ∈ UserRepo.ListActiveInTeamExcept s rnd oldUser.TeamName
      (PRRepo.GetAssignedReviewers s prID ++ [pr.AuthorID]) 20,
      d.UserID = oldUserID ∨ d.UserID ∈ PRRepo.GetAssignedReviewers s prID) :
    PRUsecase.Reassign s rnd prID oldUserID = (.error .ErrNoCandidate, s) :=
  (reassign_open_assigned s rnd prID oldUserID pr oldUser _ hget hst hmem hu rfl).1
    (next_none oldUserID _ _ hall)

/-! ## Theorems -/

/-- C3: `Reassign` on a PR whose status is `MERGED` fails with `ErrPRMerged`
for every `oldUserID` and every draw, and the store after the call is the
store before it (so the reviewer list of the PR is the same). -/
theorem reassign_merged_fails (s : Store) (rnd : User → Nat) (prID oldUserID : String)
    (pr : PullRequest) (hget : PRRepo.getByID s prID = .ok pr)
    (hst : pr.Status = StatusMerged) :
    (PRUsecase.Reassign s rnd prID oldUserID).1 = .error .ErrPRMerged ∧
    (PRUsecase.Reassign s rnd prID oldUserID).2 = s ∧
    PRRepo.GetAssignedReviewers (PRUsecase.Reassign s rnd prID oldUserID).2 prID
      = pr.AssignedReviewers := by
  have hrev : PRRepo.GetAssignedReviewers s prID = pr.AssignedReviewers := by
    unfold PRRepo.getByID at hget
    split at hget
    · cases hget
    · cases hget; rfl
  simp [PRUsecase.Reassign, PRRepo.GetByIDForUpdate, hget, hst, hrev]

/-- Witness of C3: `pr1` is merged in `mergedStore`, and reassigning its
reviewer `u2` fails with `ErrPRMerged`. -/
theorem reassign_merged_fails_witness :
    PRRepo.getByID mergedStore "pr1" = .ok pr1Merged ∧
    (PRUsecase.Reassign mergedStore (fun _ => 0) "pr1" "u2").1 = .error .ErrPRMerged ∧
    (PRUsecase.Reassign mergedStore (fun _ => 0) "pr1" "u2").2 = mergedStore ∧
    PRRepo.GetAssignedReviewers (PRUsecase.Reassign mergedStore (fun _ => 0) "pr1" "u2").2 "pr1"
      = ["u2"] :=
  ⟨by rfl, reassign_merged_fails mergedStore (fun _ => 0) "pr1" "u2" pr1Merged (by rfl) (by rfl)⟩

/-- The claim C5 as stated fails: `pr1` is in `pr1Store`, and `CreatePR` with
the id `pr1` and an author id that no user has (`ghost`) fails with
`ErrNotFound`, not with `ErrPRExists`. -/
theorem createPR_existing_id_unknown_author :
    PRRepo.getByID pr1Store "pr1" = .ok pr1Open ∧
    (PRUsecase.CreatePR pr1Store (fun _ => 0) (some 6) "pr1" "fix" "ghost").1
      = .error .ErrNotFound ∧
    (PRUsecase.CreatePR pr1Store (fun _ => 0) (some 6) "pr1" "fix" "ghost").1
      ≠ .error .ErrPRExists := by
  refine ⟨by rfl, by rfl, ?_⟩
  have h : (PRUsecase.CreatePR pr1Store (fun _ => 0) (some 6) "pr1" "fix" "ghost").1
      = .error .ErrNotFound := by rfl
  rw [h]
  intro hc
  cases hc

/-- C5, amended: `CreatePR` with a PR id that is in the store fails for every
name, every author id and every draw, and leaves the store as it was; the
error is `ErrPRExists` when the author id resolves to a user and `ErrNotFound`
when it does not. -/
theorem createPR_existing_id_fails (s : Store) (rnd : User → Nat) (createdAt : Option Nat)
    (prID name authorID : String) (pr : PullRequest)
    (hget : PRRepo.getByID s prID = .ok pr) :
    (PRUsecase.CreatePR s rnd createdAt prID name authorID).2 = s ∧
    ((∃ a, UserRepo.GetByID s authorID = .ok a) →
      (PRUsecase.CreatePR s rnd createdAt prID name authorID).1 = .error .ErrPRExists) ∧
    (UserRepo.GetByID s authorID = .error .ErrNotFound →
      (PRUsecase.CreatePR s rnd createdAt prID name authorID).1 = .error .ErrNotFound) := by
  have hany : s.pull_requests.any (fun p => p.pull_request_id == prID) = true := by
    unfold PRRepo.getByID at hget
    split at hget
    · cases hget
    · rename_i p hp
      have := List.find?_some hp
      have hm := List.mem_of_find?_eq_some hp
      exact List.any_eq_true.mpr ⟨p, hm, this⟩
  refine ⟨?_, ?_, ?_⟩
  · unfold PRUsecase.CreatePR
    split
    · rfl
    · simp [PRRepo.CreatePRWithReviewers, hany]
  · rintro ⟨a, ha⟩
    simp [PRUsecase.CreatePR, ha, PRRepo.CreatePRWithReviewers, hany]
  · intro hn
    simp [PRUsecase.CreatePR, hn]

/-- Witness of amended C5: in `pr1Store` the id `pr1` is taken and `u2` is a
user, so a second `CreatePR("pr1", ...)` by `u2` fails with `ErrPRExists`. -/
theorem createPR_existing_id_fails_witness :
    PRRepo.getByID pr1Store "pr1" = .ok pr1Open ∧
    (PRUsecase.CreatePR pr1Store (fun _ => 0) (some 6) "pr1" "other" "u2").2 = pr1Store ∧
    (PRUsecase.CreatePR pr1Store (fun _ => 0) (some 6) "pr1" "other" "u2").1
      = .error .ErrPRExists :=
  ⟨by rfl,
   (createPR_existing_id_fails pr1Store (fun _ => 0) (some 6) "pr1" "other" "u2" pr1Open (by rfl)).1,
   (createPR_existing_id_fails pr1Store (fun _ => 0) (some 6) "pr1" "other" "u2" pr1Open (by rfl)).2.1
     ⟨_, by rfl⟩⟩

/-- C8: `Reassign` on an existing PR with status `OPEN` and an `oldUserID`
that is not among its reviewers (whether or not a user has that id) fails with
`ErrNotAssigned` and leaves the store as it was. -/
theorem reassign_not_assigned_fails (s : Store) (rnd : User → Nat) (prID oldUserID : String)
    (pr : PullRequest) (hget : PRRepo.getByID s prID = .ok pr)
    (hst : pr.Status = StatusOpen) (hold : oldUserID ∉ pr.AssignedReviewers) :
    (PRUsecase.Reassign s rnd prID oldUserID).1 = .error .ErrNotAssigned ∧
    (PRUsecase.Reassign s rnd prID oldUserID).2 = s := by
  have hrev : PRRepo.GetAssignedReviewers s prID = pr.AssignedReviewers := by
    unfold PRRepo.getByID at hget
    split at hget
    · cases hget
    · cases hget; rfl
  have hne : ¬ (pr.Status = StatusMerged) := by
    rw [hst]; decide
  have hfound : (PRRepo.GetAssignedReviewers s prID).any (fun r => r == oldUserID) = false := by
    rw [hrev, List.any_eq_false]
    intro x hx hxe
    have : x = oldUserID := by simpa using hxe
    exact hold (this ▸ hx)
  simp [PRUsecase.Reassign, PRRepo.GetByIDForUpdate, hget, hne, hfound]

/-- Witness of C8: in `pr1Store` the open PR `pr1` has the one reviewer `u2`;
reassigning `u3` (a user) fails with `ErrNotAssigned`. -/
theorem reassign_not_assigned_fails_witness :
    PRRepo.getByID pr1Store "pr1" = .ok pr1Open ∧
    (PRUsecase.Reassign pr1Store (fun _ => 0) "pr1" "u3").1 = .error .ErrNotAssigned ∧
    (PRUsecase.Reassign pr1Store (fun _ => 0) "pr1" "u3").2 = pr1Store :=
  ⟨by rfl, reassign_not_assigned_fails pr1Store (fun _ => 0) "pr1" "u3" pr1Open (by rfl) (by rfl)
    (by decide)⟩

/-- C9: `CreateTeam` with a name that is in `teams` fails with `ErrTeamExists`
for every member list and leaves the store as it was: no user row is created
or changed, and `GetTeam` answers as before. -/
theorem createTeam_existing_fails (s : Store) (teamName : String) (members : List User)
    (hex : teamName ∈ s.teams) :
    (TeamUsecase.CreateTeam s teamName members).1 = .error .ErrTeamExists ∧
    (TeamUsecase.CreateTeam s teamName members).2 = s ∧
    (TeamUsecase.CreateTeam s teamName members).2.users = s.users ∧
    TeamUsecase.GetTeam (TeamUsecase.CreateTeam s teamName members).2 teamName
      = TeamUsecase.GetTeam s teamName := by
  have hrepo : TeamRepo.CreateTeam s teamName = (.error .ErrTeamExists, s) := by
    simp [TeamRepo.CreateTeam, hex]
  simp [TeamUsecase.CreateTeam, hrepo]

/-- Witness of C9: `core` exists in `coreStore`; creating it again with one
new member fails with `ErrTeamExists` and changes nothing. -/
theorem createTeam_existing_fails_witness :
    "core" ∈ coreStore.teams ∧
    (TeamUsecase.CreateTeam coreStore "core" [⟨"u9", "Zed", "core", true⟩]).1
      = .error .ErrTeamExists ∧
    (TeamUsecase.CreateTeam coreStore "core" [⟨"u9", "Zed", "core", true⟩]).2 = coreStore ∧
    (TeamUsecase.CreateTeam coreStore "core" [⟨"u9", "Zed", "core", true⟩]).2.users
      = coreStore.users ∧
    TeamUsecase.GetTeam (TeamUsecase.CreateTeam coreStore "core" [⟨"u9", "Zed", "core", true⟩]).2 "core"
      = TeamUsecase.GetTeam coreStore "core" :=
  ⟨by decide, createTeam_existing_fails coreStore "core" [⟨"u9", "Zed", "core", true⟩] (by decide)⟩

/-- C6: for an existing PR, two calls of `Merge` in a row both succeed, both
results have status `MERGED` and the same `merged_at`, which is set (the time
of the second call is not used), and the second call leaves the store as the
first left it. -/
theorem merge_twice_same (s : Store) (now1 now2 : Nat) (prID : String) (pr : PullRequest)
    (hget : PRRepo.getByID s prID = .ok pr) :
    ∃ m1 m2 : PullRequest,
      (PRUsecase.Merge s now1 prID).1 = .ok m1 ∧
      (PRUsecase.Merge (PRUsecase.Merge s now1 prID).2 now2 prID).1 = .ok m2 ∧
      m1.Status = StatusMerged ∧ m2.Status = StatusMerged ∧
      m1.MergedAt ≠ none ∧ m2.MergedAt = m1.MergedAt ∧
      (PRUsecase.Merge (PRUsecase.Merge s now1 prID).2 now2 prID).2
        = (PRUsecase.Merge s now1 prID).2 := by
  obtain ⟨p, hp, -⟩ := (getByID_ok_iff s prID pr).mp hget
  have hpid : p.pull_request_id = prID := by
    simpa using List.find?_some hp
  have hstore : (PRUsecase.Merge (PRUsecase.Merge s now1 prID).2 now2 prID).2
      = (PRUsecase.Merge s now1 prID).2 := by
    simp only [PRUsecase.Merge, setMerged_store, List.map_map]
    congr 1
    apply List.map_congr_left
    intro q _
    exact mergedRow_twice now1 now2 prID q
  have hfind : (PRUsecase.Merge s now1 prID).2.pull_requests.find?
      (fun q => q.pull_request_id == prID) = some (PRRepo.mergedRow now1 prID p) := by
    simp only [PRUsecase.Merge, setMerged_store]
    rw [find?_map_keep_id _ (mergedRow_id now1 prID), hp]
    rfl
  have h1 : (PRUsecase.Merge s now1 prID).1
      = PRRepo.getByID (PRUsecase.Merge s now1 prID).2 prID := rfl
  have h2 : (PRUsecase.Merge (PRUsecase.Merge s now1 prID).2 now2 prID).1
      = PRRepo.getByID (PRUsecase.Merge s now1 prID).2 prID := by
    have : (PRUsecase.Merge (PRUsecase.Merge s now1 prID).2 now2 prID).1
      = PRRepo.getByID (PRUsecase.Merge (PRUsecase.Merge s now1 prID).2 now2 prID).2 prID := rfl
    rw [this, hstore]
  have hok := (getByID_ok_iff (PRUsecase.Merge s now1 prID).2 prID _).mpr ⟨_, hfind, rfl⟩
  refine ⟨_, _, h1.trans hok, h2.trans hok, ?_, ?_, ?_, rfl, hstore⟩
  · simp [PRRepo.mergedRow, hpid, StatusMerged]
  · simp [PRRepo.mergedRow, hpid, StatusMerged]
  · cases hm : p.merged_at <;> simp [PRRepo.mergedRow, hpid, hm, Option.orElse]

/-- Witness of C6: merging `pr1` in `pr1Store` at time 9 and again at time 12
gives the merge time 9 both times. -/
theorem merge_twice_same_witness :
    PRRepo.getByID pr1Store "pr1" = .ok pr1Open ∧
    ∃ m1 m2 : PullRequest,
      (PRUsecase.Merge pr1Store 9 "pr1").1 = .ok m1 ∧
      (PRUsecase.Merge (PRUsecase.Merge pr1Store 9 "pr1").2 12 "pr1").1 = .ok m2 ∧
      m1.Status = StatusMerged ∧ m2.Status = StatusMerged ∧
      m1.MergedAt ≠ none ∧ m2.MergedAt = m1.MergedAt ∧
      (PRUsecase.Merge (PRUsecase.Merge pr1Store 9 "pr1").2 12 "pr1").2
        = (PRUsecase.Merge pr1Store 9 "pr1").2 :=
  ⟨by rfl, merge_twice_same pr1Store 9 12 "pr1" pr1Open (by rfl)⟩

/-- C2: in every store reachable from the empty store by `CreateTeam`,
`SetActive`, `CreatePR`, `Reassign` and `Merge` requests, no pull request has
its author among its reviewers, neither in the tables nor in what `getByID`
returns. -/
theorem author_never_reviewer (s : Store) (h : Reachable s) :
    (∀ p ∈ s.pull_requests,
      p.author_id ∉ PRRepo.GetAssignedReviewers s p.pull_request_id) ∧
    (∀ (id : String) (pr : PullRequest),
      PRRepo.getByID s id = .ok pr → pr.AuthorID ∉ pr.AssignedReviewers) := by
  have hinv := reachable_inv h
  have hrows : ∀ p ∈ s.pull_requests,
      p.author_id ∉ PRRepo.GetAssignedReviewers s p.pull_request_id := by
    intro p hp hmem
    unfold PRRepo.GetAssignedReviewers at hmem
    obtain ⟨r, hr, hre⟩ := List.mem_map.mp hmem
    obtain ⟨hr1, hr2⟩ := List.mem_filter.mp hr
    have hfst : r.1 = p.pull_request_id := by simpa using hr2
    apply hinv.author_free p hp
    have : r = (p.pull_request_id, p.author_id) := Prod.ext hfst hre
    exact this ▸ hr1
  refine ⟨hrows, ?_⟩
  intro id pr hget
  obtain ⟨p, hp, hpr⟩ := (getByID_ok_iff s id pr).mp hget
  have hid : p.pull_request_id = id := by simpa using List.find?_some hp
  have := hrows p (List.mem_of_find?_eq_some hp)
  rw [hid] at this
  rw [hpr]
  exact this

/-- Witness of C2: `quadStore` is reachable (by `quadOps`, which include a
reassignment), and its PR `pr1`, authored by `u1`, has the reviewers `u3` and
`u4`. -/
theorem author_never_reviewer_witness :
    Reachable quadStore ∧
    PRRepo.GetAssignedReviewers quadStore "pr1" = ["u3", "u4"] ∧
    (∀ p ∈ quadStore.pull_requests,
      p.author_id ∉ PRRepo.GetAssignedReviewers quadStore p.pull_request_id) ∧
    (∀ (id : String) (pr : PullRequest),
      PRRepo.getByID quadStore id = .ok pr → pr.AuthorID ∉ pr.AssignedReviewers) :=
  ⟨⟨quadOps, rfl⟩, by rfl, author_never_reviewer quadStore ⟨quadOps, rfl⟩⟩

/-- C7: once a PR of a reachable store has status `MERGED`, after every
further sequence of `CreateTeam`, `SetActive`, `CreatePR`, `Reassign` and
`Merge` requests `getByID` returns the very same PR: status `MERGED`, the same
author, the same reviewer list and the same `merged_at`. -/
theorem merged_is_terminal (s : Store) (h : Reachable s) (prID : String) (pr : PullRequest)
    (hget : PRRepo.getByID s prID = .ok pr) (hst : pr.Status = StatusMerged) (ops : List Op) :
    PRRepo.getByID (runOps s ops) prID = .ok pr ∧
    ∃ pr2 : PullRequest, PRRepo.getByID (runOps s ops) prID = .ok pr2 ∧
      pr2.Status = StatusMerged ∧ pr2.AuthorID = pr.AuthorID ∧
      pr2.AssignedReviewers = pr.AssignedReviewers ∧ pr2.MergedAt = pr.MergedAt := by
  have hinv := reachable_inv h
  have key : PRRepo.getByID (runOps s ops) prID = .ok pr := by
    clear h
    induction ops generalizing s with
    | nil => exact hget
    | cons op ops ih =>
      exact ih (op.run s) (merged_step hinv hget hst op) (inv_run hinv op)
  exact ⟨key, pr, key, hst, rfl, rfl, rfl⟩

/-- Witness of C7: `pr2` is merged in `quadStore`; after a reassignment of its
reviewer `u2`, a second merge at a later time, a deactivation of its reviewer
`u3` and a new PR, it is unchanged. -/
theorem merged_is_terminal_witness :
    Reachable quadStore ∧ PRRepo.getByID quadStore "pr2" = .ok pr2Merged ∧
    PRRepo.getByID
      (runOps quadStore
        [.Reassign (fun _ => 0) "pr2" "u2", .Merge 20 "pr2", .SetActive "u3" false,
         .CreatePR (fun _ => 0) (some 21) "pr3" "doc" "u2"]) "pr2" = .ok pr2Merged :=
  ⟨⟨quadOps, rfl⟩, by rfl,
   (merged_is_terminal quadStore ⟨quadOps, rfl⟩ "pr2" pr2Merged (by rfl) (by rfl)
      [.Reassign (fun _ => 0) "pr2" "u2", .Merge 20 "pr2", .SetActive "u3" false,
       .CreatePR (fun _ => 0) (some 21) "pr3" "doc" "u2"]).1⟩

/-- C10: in every reachable store the map of `StatsByStatus` has the keys
`OPEN` and `MERGED`, each with the number of PRs of that status (0 when there
is none), and the two numbers add up to the number of PRs. -/
theorem stats_both_keys (s : Store) (h : Reachable s) :
    PRUsecase.StatsByStatus s StatusOpen
      = some (s.pull_requests.filter (fun p => p.status == StatusOpen)).length ∧
    PRUsecase.StatsByStatus s StatusMerged
      = some (s.pull_requests.filter (fun p => p.status == StatusMerged)).length ∧
    (s.pull_requests.filter (fun p => p.status == StatusOpen)).length
      + (s.pull_requests.filter (fun p => p.status == StatusMerged)).length
      = s.pull_requests.length :=
  ⟨stats_at_initial_key s StatusOpen (Or.inl rfl),
   stats_at_initial_key s StatusMerged (Or.inr rfl),
   open_plus_merged s.pull_requests (reachable_inv h).status_known⟩

/-- Witness of C10: `quadStore` has one open and one merged PR, and the empty
store has both keys at 0. -/
theorem stats_both_keys_witness :
    Reachable quadStore ∧
    PRUsecase.StatsByStatus quadStore StatusOpen = some 1 ∧
    PRUsecase.StatsByStatus quadStore StatusMerged = some 1 ∧
    quadStore.pull_requests.length = 2 ∧
    PRUsecase.StatsByStatus Store.empty StatusOpen = some 0 ∧
    PRUsecase.StatsByStatus Store.empty StatusMerged = some 0 :=
  ⟨⟨quadOps, rfl⟩,
   (stats_both_keys quadStore ⟨quadOps, rfl⟩).1,
   (stats_both_keys quadStore ⟨quadOps, rfl⟩).2.1,
   by rfl,
   (stats_both_keys Store.empty ⟨[], rfl⟩).1,
   (stats_both_keys Store.empty ⟨[], rfl⟩).2.1⟩

/-- C1: in a store that satisfies the key constraints, when `Reassign(prID,
oldUserID)` succeeds with `(updated, next)`: `oldUserID` is not in
`updated.AssignedReviewers`, `next` is, every other reviewer of before is
still there and `next` is the only new one, the number of reviewers is the
number before the call, `next` is not the author, not `oldUserID` and was not
a reviewer before; and `updated` is what the store holds afterwards. -/
theorem reassign_success (s : Store) (hwf : s.WF) (rnd : User → Nat) (prID oldUserID : String)
    (pr updated : PullRequest) (next : String)
    (hget : PRRepo.getByID s prID = .ok pr)
    (hok : (PRUsecase.Reassign s rnd prID oldUserID).1 = .ok (updated, next)) :
    oldUserID ∉ updated.AssignedReviewers ∧
    next ∈ updated.AssignedReviewers ∧
    (∀ r ∈ pr.AssignedReviewers, r ≠ oldUserID → r ∈ updated.AssignedReviewers) ∧
    (∀ r ∈ updated.AssignedReviewers, r = next ∨ r ∈ pr.AssignedReviewers) ∧
    updated.AssignedReviewers.length = pr.AssignedReviewers.length ∧
    next ≠ pr.AuthorID ∧ next ≠ oldUserID ∧ next ∉ pr.AssignedReviewers ∧
    PRRepo.getByID (PRUsecase.Reassign s rnd prID oldUserID).2 prID = .ok updated := by
  rcases reassign_cases s rnd prID oldUserID with
    ⟨-, e, he⟩ | ⟨pr0, oldUser, next0, hg, -, hmem, -, hn, hne, hstore, hres⟩
  · rw [he] at hok; cases hok
  · rw [hget] at hg
    cases hg
    rw [hres] at hok
    cases hok
    obtain ⟨hna, hno, hnas⟩ := next_ne_author hn hne
    have hrev := getByID_reviewers hget
    have hnd : pr.AssignedReviewers.Nodup := by
      rw [hrev]; exact assigned_nodup s prID hwf.reviewers_key
    have hmem2 : oldUserID ∈ pr.AssignedReviewers := by rw [hrev]; exact hmem
    have hnas2 : next ∉ pr.AssignedReviewers := by rw [hrev]; exact hnas
    refine ⟨?_, ?_, ?_, ?_, ?_, hna, hno, hnas2, ?_⟩
    · show oldUserID ∉ List.filter _ pr.AssignedReviewers ++ [next]
      intro hm
      rcases List.mem_append.mp hm with hm | hm
      · simpa using (List.mem_filter.mp hm).2
      · rw [List.mem_singleton] at hm
        exact hno hm.symm
    · exact List.mem_append_right _ (List.mem_singleton_self _)
    · intro r hr hro
      exact List.mem_append_left _ (List.mem_filter.mpr ⟨hr, by simpa using hro⟩)
    · intro r hr
      rcases List.mem_append.mp hr with hm | hm
      · right; exact List.mem_of_mem_filter hm
      · left; exact List.mem_singleton.mp hm
    · show (List.filter _ pr.AssignedReviewers ++ [next]).length = _
      rw [List.length_append, List.length_singleton]
      exact length_filter_ne_of_nodup _ _ hnd hmem2
    · rw [hstore, getByID_ok_iff]
      obtain ⟨p, hp, hpr⟩ := (getByID_ok_iff s prID pr).mp hget
      refine ⟨p, hp, ?_⟩
      rw [hrev, hpr]
      simp only [PRRepo.GetAssignedReviewers, replace_reviewers_same]

/-- Witness of C1: in `quadOpenStore` the PR `pr1` of author `u1` has the
reviewers `u2` and `u3`; `Reassign("pr1","u2")` succeeds with `next = u4` and
the reviewers `u3`, `u4`. -/
theorem reassign_success_witness :
    PRRepo.getByID quadOpenStore "pr1" =
      .ok { ID := "pr1", Name := "fix", AuthorID := "u1", Status := "OPEN",
            AssignedReviewers := ["u2", "u3"], CreatedAt := some 5, MergedAt := none } ∧
    (PRUsecase.Reassign quadOpenStore (fun _ => 0) "pr1" "u2").1 =
      .ok ({ ID := "pr1", Name := "fix", AuthorID := "u1", Status := "OPEN",
             AssignedReviewers := ["u3", "u4"], CreatedAt := some 5, MergedAt := none }, "u4") ∧
    "u2" ∉ ["u3", "u4"] ∧ "u4" ∈ ["u3", "u4"] ∧
    (∀ r ∈ ["u2", "u3"], r ≠ "u2" → r ∈ ["u3", "u4"]) ∧
    (∀ r ∈ ["u3", "u4"], r = "u4" ∨ r ∈ ["u2", "u3"]) ∧
    ["u3", "u4"].length = ["u2", "u3"].length ∧
    "u4" ≠ "u1" ∧ "u4" ≠ "u2" ∧ "u4" ∉ ["u2", "u3"] ∧
    PRRepo.getByID (PRUsecase.Reassign quadOpenStore (fun _ => 0) "pr1" "u2").2 "pr1" =
      .ok { ID := "pr1", Name := "fix", AuthorID := "u1", Status := "OPEN",
            AssignedReviewers := ["u3", "u4"], CreatedAt := some 5, MergedAt := none } :=
  ⟨by rfl, by rfl,
   reassign_success quadOpenStore (reachable_inv ⟨quadOps.take 3, rfl⟩).toWF (fun _ => 0)
     "pr1" "u2" _ _ "u4" (by rfl) (by rfl)⟩

/-- C4: in a store that satisfies the key constraints, for an author id that
resolves and a PR id that is not in the store, with `k` the number of active
users of the author's team other than the author: `CreatePR` succeeds, the PR
it returns (and stores) has status `OPEN` and exactly `min 2 k` reviewers,
pairwise distinct, each the id of an active user of the author's team and none
the author; so 2 reviewers when `k ≥ 2` and none when `k = 0`. -/
theorem createPR_assigns (s : Store) (hwf : s.WF) (rnd : User → Nat) (createdAt : Option Nat)
    (prID name authorID : String) (author : User) (k : Nat)
    (hauthor : UserRepo.GetByID s authorID = .ok author)
    (hnew : prID ∉ s.pull_requests.map (fun p => p.pull_request_id))
    (hk : k = (s.users.filter (fun u => decide
      (u.TeamName = author.TeamName ∧ u.IsActive = true ∧ u.UserID ≠ authorID))).length) :
    ∃ pr : PullRequest,
      (PRUsecase.CreatePR s rnd createdAt prID name authorID).1 = .ok pr ∧
      PRRepo.getByID (PRUsecase.CreatePR s rnd createdAt prID name authorID).2 prID = .ok pr ∧
      pr.ID = prID ∧ pr.AuthorID = authorID ∧ pr.Status = StatusOpen ∧
      pr.AssignedReviewers.length = min 2 k ∧
      pr.AssignedReviewers.Nodup ∧
      (∀ r ∈ pr.AssignedReviewers, r ≠ authorID ∧
        ∃ u ∈ s.users, u.UserID = r ∧ u.IsActive = true ∧ u.TeamName = author.TeamName) ∧
      (2 ≤ k → pr.AssignedReviewers.length = 2) ∧
      (k = 0 → pr.AssignedReviewers = []) := by
  have hany : s.pull_requests.any (fun p => p.pull_request_id == prID) = false := by
    rw [List.any_eq_false]
    intro p hp hpe
    exact hnew (List.mem_map.mpr ⟨p, hp, by simpa using hpe⟩)
  have hid := (getUser_ok hauthor).2
  rcases createPR_cases s rnd createdAt prID name authorID with
    ⟨hs, e, he⟩ | ⟨author2, ha2, -, hstore, hres⟩
  · exfalso
    simp only [PRUsecase.CreatePR, hauthor, PRRepo.CreatePRWithReviewers, hany] at hs
    have : s.pull_requests ++ [(⟨prID, name, authorID, "OPEN", createdAt, none⟩ : PRRow)]
        = s.pull_requests := congrArg Store.pull_requests hs
    have hl := congrArg List.length this
    simp at hl
  · rw [hauthor] at ha2
    cases ha2
    have hfind : (PRUsecase.CreatePR s rnd createdAt prID name authorID).2.pull_requests.find?
        (fun p => p.pull_request_id == prID)
        = some ⟨prID, name, authorID, "OPEN", createdAt, none⟩ := by
      rw [hstore]
      show List.find? _ (s.pull_requests ++ [_]) = _
      have hnone : s.pull_requests.find? (fun p => p.pull_request_id == prID) = none := by
        rw [List.find?_eq_none]
        intro p hp
        exact List.any_eq_false.mp hany p hp
      rw [List.find?_append, hnone]
      simp
    have hrevs : PRRepo.GetAssignedReviewers
        (PRUsecase.CreatePR s rnd createdAt prID name authorID).2 prID
        = (UserRepo.ListActiveInTeamExcept s rnd author.TeamName [author.UserID] 2).map
            (fun c => c.UserID) := by
      rw [hstore]
      exact new_pr_reviewers s prID _ hwf.reviewers_ref hnew
    have hread := (getByID_ok_iff (PRUsecase.CreatePR s rnd createdAt prID name authorID).2
      prID _).mpr ⟨_, hfind, rfl⟩
    have hlen : ((UserRepo.ListActiveInTeamExcept s rnd author.TeamName [author.UserID] 2).map
        (fun c => c.UserID)).length = min 2 k := by
      rw [List.length_map, listActive_length, hk]
      congr 2
      apply List.filter_congr
      intro u _
      rw [hid]
      by_cases h1 : u.TeamName = author.TeamName <;> by_cases h2 : u.IsActive = true <;>
        by_cases h3 : u.UserID = authorID <;> simp [h1, h2, h3]
    refine ⟨_, hres.trans hread, hread, rfl, rfl, rfl, ?_, ?_, ?_, ?_, ?_⟩
    · show (PRRepo.GetAssignedReviewers _ prID).length = _
      rw [hrevs]; exact hlen
    · show (PRRepo.GetAssignedReviewers _ prID).Nodup
      rw [hrevs]; exact listActive_ids_nodup s rnd _ _ 2 hwf.users_key
    · show ∀ r ∈ PRRepo.GetAssignedReviewers _ prID, _
      rw [hrevs]
      intro r hr
      obtain ⟨c, hc, hce⟩ := List.mem_map.mp hr
      obtain ⟨hc1, hc2, hc3, hc4⟩ := mem_listActive hc
      refine ⟨?_, c, hc1, hce, hc3, hc2⟩
      intro heq
      apply hc4
      rw [hce, heq, hid]
      exact List.mem_singleton_self _
    · intro h2
      show (PRRepo.GetAssignedReviewers _ prID).length = _
      rw [hrevs, hlen]
      exact Nat.min_eq_left h2
    · intro h0
      show PRRepo.GetAssignedReviewers _ prID = []
      rw [hrevs]
      apply List.eq_nil_of_length_eq_zero
      rw [hlen, h0]
      rfl

/-- Witness of C4: in `coreStore` (`u1`, `u2` active, `u3` inactive) the
author `u1` has one active team mate, and `CreatePR("pr1","fix","u1")` gives
the reviewers `[u2]`. -/
theorem createPR_assigns_witness :
    (PRUsecase.CreatePR coreStore (fun _ => 0) (some 5) "pr1" "fix" "u1").1 = .ok pr1Open ∧
    pr1Open.AssignedReviewers = ["u2"] ∧
    ∃ pr : PullRequest,
      (PRUsecase.CreatePR coreStore (fun _ => 0) (some 5) "pr1" "fix" "u1").1 = .ok pr ∧
      PRRepo.getByID (PRUsecase.CreatePR coreStore (fun _ => 0) (some 5) "pr1" "fix" "u1").2 "pr1"
        = .ok pr ∧
      pr.ID = "pr1" ∧ pr.AuthorID = "u1" ∧ pr.Status = StatusOpen ∧
      pr.AssignedReviewers.length = min 2 1 ∧
      pr.AssignedReviewers.Nodup ∧
      (∀ r ∈ pr.AssignedReviewers, r ≠ "u1" ∧
        ∃ u ∈ coreStore.users, u.UserID = r ∧ u.IsActive = true ∧ u.TeamName = "core") ∧
      (2 ≤ 1 → pr.AssignedReviewers.length = 2) ∧
      (1 = 0 → pr.AssignedReviewers = []) :=
  ⟨by rfl, by rfl,
   createPR_assigns coreStore (reachable_inv ⟨[.CreateTeam "core" coreMembers], rfl⟩).toWF
     (fun _ => 0) (some 5) "pr1" "fix" "u1" ⟨"u1", "Ann", "core", true⟩ 1
     (by rfl) (by decide) (by rfl)⟩

/-- C14: `Merge` with a PR id that no row of `pull_requests` has fails with
`ErrNotFound` and leaves the store as it was: no PR is created and every row
keeps its status and its `merged_at`. -/
theorem merge_missing_fails (s : Store) (now : Nat) (prID : String)
    (hmiss : PRRepo.getByID s prID = .error .ErrNotFound) :
    (PRUsecase.Merge s now prID).1 = .error .ErrNotFound ∧
    (PRUsecase.Merge s now prID).2 = s ∧
    (PRUsecase.Merge s now prID).2.pull_requests = s.pull_requests := by
  have hnone : ∀ p ∈ s.pull_requests, ¬ p.pull_request_id = prID := by
    intro p hp hpe
    have hany : s.pull_requests.find? (fun q => q.pull_request_id == prID) ≠ none := by
      intro hn
      exact absurd hpe (by simpa using List.find?_eq_none.mp hn p hp)
    unfold PRRepo.getByID at hmiss
    split at hmiss
    · rename_i hn
      exact hany hn
    · cases hmiss
  have hrows : s.pull_requests.map (PRRepo.mergedRow now prID) = s.pull_requests := by
    have : s.pull_requests.map (PRRepo.mergedRow now prID) = s.pull_requests.map id := by
      apply List.map_congr_left
      intro p hp
      simp [PRRepo.mergedRow, hnone p hp]
    rw [this, List.map_id]
  have hstore : (PRUsecase.Merge s now prID).2 = s := by
    simp only [PRUsecase.Merge, setMerged_store, hrows]
  refine ⟨?_, hstore, by rw [hstore]⟩
  have hres : (PRUsecase.Merge s now prID).1
      = PRRepo.getByID (PRUsecase.Merge s now prID).2 prID := rfl
  rw [hres, hstore, hmiss]

/-- Witness of C14: `pr1Store` has no PR `pr9`; merging it fails with
`ErrNotFound` and `pr1` stays open without a merge time. -/
theorem merge_missing_fails_witness :
    PRRepo.getByID pr1Store "pr9" = .error .ErrNotFound ∧
    (PRUsecase.Merge pr1Store 9 "pr9").1 = .error .ErrNotFound ∧
    (PRUsecase.Merge pr1Store 9 "pr9").2 = pr1Store ∧
    (PRUsecase.Merge pr1Store 9 "pr9").2.pull_requests = pr1Store.pull_requests :=
  ⟨by rfl, merge_missing_fails pr1Store 9 "pr9" (by rfl)⟩

/-- C12: in every reachable store, for a user id that no row of `users` has,
`GetReviews` succeeds and returns the empty list. -/
theorem getReviews_unknown_user (s : Store) (h : Reachable s) (userID : String)
    (hmiss : UserRepo.GetByID s userID = .error .ErrNotFound) :
    UserUsecase.GetReviews s userID = .ok [] := by
  have hrau := reachable_reviewersAreUsers h
  have hnot : userID ∉ s.users.map (fun u => u.UserID) := by
    intro hm
    obtain ⟨u, hu, hue⟩ := List.mem_map.mp hm
    unfold UserRepo.GetByID at hmiss
    split at hmiss
    · cases hmiss
    · rename_i hn
      exact absurd hue (by simpa using List.find?_eq_none.mp hn u hu)
  have hjoin : s.pull_requests.flatMap (fun p =>
      (s.pr_reviewers.filter (fun r => r.1 == p.pull_request_id && r.2 == userID)).map
        (fun _ => p)) = [] := by
    rw [List.flatMap_eq_nil_iff]
    intro p _
    rw [List.map_eq_nil_iff, List.filter_eq_nil_iff]
    intro r hr hre
    have h2 : r.2 = userID := by
      have := hre
      simp only [Bool.and_eq_true, beq_iff_eq] at this
      exact this.2
    exact hnot (h2 ▸ hrau r hr)
  simp only [UserUsecase.GetReviews, PRRepo.ListByReviewer, hjoin]
  rfl

/-- Witness of C12: `quadStore` is reachable and has no user `u9`, whose
review list is empty; the same call for the reviewer `u3` is not empty. -/
theorem getReviews_unknown_user_witness :
    Reachable quadStore ∧
    UserRepo.GetByID quadStore "u9" = .error .ErrNotFound ∧
    UserUsecase.GetReviews quadStore "u9" = .ok [] ∧
    UserUsecase.GetReviews quadStore "u3" =
      .ok [⟨"pr2", "feat", "u1", "MERGED"⟩, ⟨"pr1", "fix", "u1", "OPEN"⟩] :=
  ⟨⟨quadOps, rfl⟩, by rfl,
   getReviews_unknown_user quadStore ⟨quadOps, rfl⟩ "u9" (by rfl), by rfl⟩

/-- C13 at an input where the code departs from the claim. In `blankStore`
the open PR `pr1` (author `u1`) has the one reviewer `u2`, who resolves; the
candidate pool for `Reassign("pr1","u2")` is the user with the empty id
followed by `u3`, both neither `u2` nor assigned. The claim asks for the
replacement by the first of them; the loop stores its id `""` in `next`, which
is also its mark for "none found", and `Reassign` fails with `ErrNoCandidate`
without a write. With a draw that puts `u3` first the same call succeeds with
`u3`. In the scenario of the claim (`pr1Store`, only `u1` and `u2` active) the
pool is empty and `ErrNoCandidate` is what the claim says. -/
theorem reassign_blank_candidate :
    Reachable blankStore ∧
    PRRepo.getByID blankStore "pr1" = .ok pr1Open ∧
    UserRepo.GetByID blankStore "u2" = .ok ⟨"u2", "Bob", "core", true⟩ ∧
    UserRepo.ListActiveInTeamExcept blankStore (fun _ => 0) "core" ["u2", "u1"] 20
      = [⟨"", "Nil", "core", true⟩, ⟨"u3", "Cy", "core", true⟩] ∧
    PRUsecase.Reassign blankStore (fun _ => 0) "pr1" "u2"
      = (.error .ErrNoCandidate, blankStore) ∧
    (PRUsecase.Reassign blankStore (fun u => if u.UserID = "" then 1 else 0) "pr1" "u2").1
      = .ok ({ pr1Open with AssignedReviewers := ["u3"] }, "u3") ∧
    PRUsecase.Reassign pr1Store (fun _ => 0) "pr1" "u2"
      = (.error .ErrNoCandidate, pr1Store) := by
  refine ⟨⟨blankOps, rfl⟩, by rfl, by rfl, by rfl, by rfl, by rfl, by rfl⟩

end PRReviewer
